import Mathlib

/-!
# dqlite `format.c`: SQLite binary formats and the WAL checksum

A shallow embedding of `src/format.c` / `src/format.h`.

* A byte is a `Fin 256`; a buffer (`uint8_t *`) is a list of bytes, read with
  `rd` (a read past the end of the list yields `0`) and written with `wr`
  (a write past the end is dropped).  Theorems state the buffer sizes the C
  functions require.
* `uint32_t` / `unsigned` values are natural numbers, reduced with `u32`
  (`% 2^32`) wherever the C arithmetic wraps.
* Casting a `uint8_t *` to `uint32_t *` and dereferencing depends on the byte
  order of the host, which is an explicit parameter (`ByteOrder`).
* `assert` is modelled by the result `Outcome.assertionFailure`; the `do/while`
  loops of the checksum take fuel and report `Outcome.outOfFuel` when it runs
  out (the theorems show it never does).
* The VFS (`vfs.c`) is not among the sources, only its integration test is; its
  poll/commit/revert protocol is modelled from the specification (`vfsStep`).
-/

namespace Dqlite

/-! ## Memory model -/

/-- Byte order of the machine running the code. -/
inductive ByteOrder where
  | little
  | big
  deriving DecidableEq, Repr

/-- Result of a function that contains assertions or a fuelled loop. -/
inductive Outcome (α : Type) where
  | ok (value : α)
  | assertionFailure
  | outOfFuel
  deriving DecidableEq, Repr

/-- One `uint8_t`. -/
abbrev Byte := Fin 256

/-- A byte buffer, addressed from the pointer it is passed as. -/
abbrev Buf := List Byte

/-- Read of `buf[i]`. -/
def rd (buf : Buf) (i : Nat) : Byte := buf.getD i 0

/-- Assignment `buf[i] = b`. -/
def wr (buf : Buf) (i : Nat) (b : Byte) : Buf := buf.set i b

/-- Cast `(uint8_t)v`. -/
def u8 (v : Nat) : Byte := ⟨v % 256, Nat.mod_lt v (by decide)⟩

/-- Reduction of a value to `uint32_t`. -/
def u32 (v : Nat) : Nat := v % 4294967296

/-- Dereference `*(uint32_t *)(buf + off)` on the given host. -/
def load32 (host : ByteOrder) (buf : Buf) (off : Nat) : Nat :=
  match host with
  | .little =>
    (rd buf off).val + (rd buf (off + 1)).val * 256 + (rd buf (off + 2)).val * 65536
      + (rd buf (off + 3)).val * 16777216
  | .big =>
    (rd buf off).val * 16777216 + (rd buf (off + 1)).val * 65536 + (rd buf (off + 2)).val * 256
      + (rd buf (off + 3)).val

/-- Assignment `*(uint32_t *)(buf + off) = v` (equally `memcpy(buf + off, &v, 4)`)
on the given host. -/
def store32 (host : ByteOrder) (buf : Buf) (off : Nat) (v : Nat) : Buf :=
  match host with
  | .little =>
    wr (wr (wr (wr buf off (u8 v)) (off + 1) (u8 (v / 256))) (off + 2) (u8 (v / 65536)))
      (off + 3) (u8 (v / 16777216))
  | .big =>
    wr (wr (wr (wr buf off (u8 (v / 16777216))) (off + 1) (u8 (v / 65536))) (off + 2)
      (u8 (v / 256))) (off + 3) (u8 v)

/-- Call `memcpy(dst + dstOff, src + srcOff, n)` for regions that do not overlap. -/
def memcpy (dst : Buf) (dstOff : Nat) (src : Buf) (srcOff : Nat) : Nat → Buf
  | 0 => dst
  | k + 1 => wr (memcpy dst dstOff src srcOff k) (dstOff + k) (rd src (srcOff + k))

/-! ## Constants of `format.h` and `format.c` -/

def FORMAT__PAGE_SIZE_MIN : Nat := 512
def FORMAT__PAGE_SIZE_MAX : Nat := 65536
def FORMAT__DB_HDR_SIZE : Nat := 100
def FORMAT__WAL_HDR_SIZE : Nat := 32
def FORMAT__WAL_FRAME_HDR_SIZE : Nat := 24
def FORMAT__WAL_NREADER : Nat := 5
def FORMAT__WAL_IDX_HDR_SIZE : Nat := 48
def FORMAT__WAL_MAGIC : Nat := 0x377f0682

/-! ## `format.c` -/

/-- Function `formatGet32(buf + off, &v)`: the four `+=` of the source, each
wrapping at 32 bits. -/
def formatGet32 (buf : Buf) (off : Nat) : Nat :=
  let v := 0
  let v := u32 (v + u32 ((rd buf off).val <<< 24))
  let v := u32 (v + u32 ((rd buf (off + 1)).val <<< 16))
  let v := u32 (v + u32 ((rd buf (off + 2)).val <<< 8))
  let v := u32 (v + u32 ((rd buf (off + 3)).val))
  v

/-- Function `formatPut32(v, buf + off)`. -/
def formatPut32 (v : Nat) (buf : Buf) (off : Nat) : Buf :=
  let buf := wr buf off (u8 (v >>> 24))
  let buf := wr buf (off + 1) (u8 (v >>> 16))
  let buf := wr buf (off + 2) (u8 (v >>> 8))
  let buf := wr buf (off + 3) (u8 v)
  buf

/-- Function `formatDecodePageSize`. -/
def formatDecodePageSize (buf : Buf) : Nat :=
  let page_size := formatGet32 buf 0
  if page_size = 1 then FORMAT__PAGE_SIZE_MAX
  else if page_size < FORMAT__PAGE_SIZE_MIN then 0
  else if page_size > FORMAT__PAGE_SIZE_MAX / 2 then 0
  else if (u32 (page_size + 4294967296 - 1)) &&& page_size ≠ 0 then 0
  else page_size

/-- Function `formatDatabaseGetPageSize`. -/
def formatDatabaseGetPageSize (header : Buf) : Nat :=
  let buf : Buf := [0, 0, rd header 16, rd header 17]
  formatDecodePageSize buf

/-- Function `formatWalGetPageSize`. -/
def formatWalGetPageSize (header : Buf) : Nat :=
  let buf : Buf := [rd header 8, rd header 9, rd header 10, rd header 11]
  formatDecodePageSize buf

/-- Function `formatWalGetChecksums`. -/
def formatWalGetChecksums (header : Buf) : Nat × Nat :=
  let checksum1 := formatGet32 header 24
  let checksum2 := formatGet32 header 28
  (checksum1, checksum2)

/-- Function `formatWalGetSalt`: two host-order word reads. -/
def formatWalGetSalt (host : ByteOrder) (header : Buf) : Nat × Nat :=
  let salt1 := load32 host header 16
  let salt2 := load32 host header 20
  (salt1, salt2)

/-- Function `formatWalGetMxFrame`: `((uint32_t *)header)[4]`. -/
def formatWalGetMxFrame (host : ByteOrder) (header : Buf) : Nat :=
  load32 host header (4 * 4)

/-- Function `formatWalGetReadMarks`: the `FORMAT__WAL_NREADER` words from word 25 on. -/
def formatWalGetReadMarks (host : ByteOrder) (header : Buf) : List Nat :=
  (List.range FORMAT__WAL_NREADER).map (fun i => load32 host header (4 * 25 + 4 * i))

/-- Function `formatWalGetFramePageNumber`. -/
def formatWalGetFramePageNumber (header : Buf) : Nat :=
  formatGet32 header 0

/-- Function `formatWalGetFrameChecksums`. -/
def formatWalGetFrameChecksums (header : Buf) : Nat × Nat :=
  let checksum1 := formatGet32 header 16
  let checksum2 := formatGet32 header 20
  (checksum1, checksum2)

/-- Function `formatWalGetNativeChecksum`. -/
def formatWalGetNativeChecksum (header : Buf) : Outcome Bool :=
  let magic := formatGet32 header 0
  if magic &&& 0xFFFFFFFE ≠ FORMAT__WAL_MAGIC then .assertionFailure
  else .ok (!(decide (magic &&& 0x00000001 ≠ 0)))

/-- The `native` branch of `formatWalChecksumBytes`:
`do { s1 += *cur++ + s2; s2 += *cur++ + s1; } while (cur < end);`
with `cur` and `end` as byte offsets into `data`. -/
def checksumLoopNative (host : ByteOrder) (data : Buf) (endOff : Nat) :
    Nat → Nat → Nat → Nat → Outcome (Nat × Nat)
  | 0, _, _, _ => .outOfFuel
  | fuel + 1, cur, s1, s2 =>
    let s1 := u32 (s1 + u32 (load32 host data cur + s2))
    let cur := cur + 4
    let s2 := u32 (s2 + u32 (load32 host data cur + s1))
    let cur := cur + 4
    if cur < endOff then checksumLoopNative host data endOff fuel cur s1 s2
    else .ok (s1, s2)

/-- The word `d` after `formatPut32(w, (uint8_t *)&d)`: the four bytes of the local
`d` are overwritten and `d` is then read as a host word. -/
def put32ToWord (host : ByteOrder) (w : Nat) : Nat :=
  load32 host (formatPut32 w [0, 0, 0, 0] 0) 0

/-- The non-native branch of `formatWalChecksumBytes`:
`do { formatPut32(cur[0], &d); s1 += d + s2; formatPut32(cur[1], &d); s2 += d + s1;
cur += 2; } while (cur < end);`. -/
def checksumLoopSwapped (host : ByteOrder) (data : Buf) (endOff : Nat) :
    Nat → Nat → Nat → Nat → Outcome (Nat × Nat)
  | 0, _, _, _ => .outOfFuel
  | fuel + 1, cur, s1, s2 =>
    let d := put32ToWord host (load32 host data cur)
    let s1 := u32 (s1 + u32 (d + s2))
    let d := put32ToWord host (load32 host data (cur + 4))
    let s2 := u32 (s2 + u32 (d + s1))
    let cur := cur + 8
    if cur < endOff then checksumLoopSwapped host data endOff fuel cur s1 s2
    else .ok (s1, s2)

/-- Function `formatWalChecksumBytes(native, data, n, in, out)`; the result is
`(out[0], out[1])`.  A null `in` is `none`. -/
def formatWalChecksumBytes (host : ByteOrder) (native : Bool) (data : Buf) (n : Nat)
    (in_ : Option (Nat × Nat)) : Outcome (Nat × Nat) :=
  let s : Nat × Nat :=
    match in_ with
    | some (a, b) => (a, b)
    | none => (0, 0)
  if ¬ (n ≥ 8) then .assertionFailure
  else if ¬ (n &&& 0x00000007 = 0) then .assertionFailure
  else if ¬ (n ≤ 65536) then .assertionFailure
  else if native then checksumLoopNative host data n n 0 s.1 s.2
  else checksumLoopSwapped host data n n 0 s.1 s.2

/-- Function `formatWalPutFrameHeader`; the result is the new
`(*checksum1, *checksum2)` and the header buffer as written. -/
def formatWalPutFrameHeader (host : ByteOrder) (native : Bool)
    (page_number database_size salt1 salt2 checksum1 checksum2 : Nat)
    (header page : Buf) (page_size : Nat) : Outcome ((Nat × Nat) × Buf) :=
  let checksum : Nat × Nat := (u32 checksum1, u32 checksum2)
  let header := formatPut32 page_number header 0
  let header := formatPut32 database_size header 4
  match formatWalChecksumBytes host native header 8 (some checksum) with
  | .assertionFailure => .assertionFailure
  | .outOfFuel => .outOfFuel
  | .ok checksum =>
    match formatWalChecksumBytes host native page page_size (some checksum) with
    | .assertionFailure => .assertionFailure
    | .outOfFuel => .outOfFuel
    | .ok checksum =>
      let header := store32 host header 8 salt1
      let header := store32 host header 12 salt2
      let header := formatPut32 checksum.1 header 16
      let header := formatPut32 checksum.2 header 20
      .ok (checksum, header)

/-- Function `formatWalIndexHeaderRevert`; the result is the header buffer as
written. -/
def formatWalIndexHeaderRevert (host : ByteOrder) (header : Buf)
    (max_frame n_pages frame_checksum1 frame_checksum2 : Nat) : Outcome Buf :=
  let checksum : Nat × Nat := (0, 0)
  let native : Bool := decide ((rd header 13).val = 0)
  let header := store32 host header 16 max_frame
  let header := store32 host header 20 n_pages
  let header := store32 host header 24 frame_checksum1
  let header := store32 host header 28 frame_checksum2
  match formatWalChecksumBytes host native header 40 (some checksum) with
  | .assertionFailure => .assertionFailure
  | .outOfFuel => .outOfFuel
  | .ok checksum =>
    let header := store32 host header 40 checksum.1
    let header := store32 host header 44 checksum.2
    .ok (memcpy header FORMAT__WAL_IDX_HDR_SIZE header 0 FORMAT__WAL_IDX_HDR_SIZE)

/-- Macro `formatWalCalcFrameSize`. -/
def formatWalCalcFrameSize (page_size : Nat) : Nat :=
  FORMAT__WAL_FRAME_HDR_SIZE + page_size

/-- Macro `formatWalCalcFramesNumber(PAGE_SIZE, SIZE)`:
`((SIZE - FORMAT__WAL_HDR_SIZE) / formatWalCalcFrameSize(PAGE_SIZE))`.  The macro fixes
no integer type; its operands are natural numbers here, so nothing wraps, and the
subtraction is meaningful for `SIZE ≥ FORMAT__WAL_HDR_SIZE` only. -/
def formatWalCalcFramesNumber (page_size size : Nat) : Nat :=
  (size - FORMAT__WAL_HDR_SIZE) / formatWalCalcFrameSize page_size

/-- Macro `formatWalCalcFrameIndex(PAGE_SIZE, OFFSET)`:
`(formatWalCalcFramesNumber(PAGE_SIZE, OFFSET) + 1)`. -/
def formatWalCalcFrameIndex (page_size offset : Nat) : Nat :=
  formatWalCalcFramesNumber page_size offset + 1

/-! ## Reference definitions, following the specification's wording -/

/-- Big-endian 32-bit value of the four bytes at `off`. -/
def beWord (data : Buf) (off : Nat) : Nat :=
  (rd data off).val * 16777216 + (rd data (off + 1)).val * 65536
    + (rd data (off + 2)).val * 256 + (rd data (off + 3)).val

/-- Little-endian 32-bit value of the four bytes at `off`. -/
def leWord (data : Buf) (off : Nat) : Nat :=
  (rd data off).val + (rd data (off + 1)).val * 256
    + (rd data (off + 2)).val * 65536 + (rd data (off + 3)).val * 16777216

/-- Value of the four bytes at `off` in the byte order of the host. -/
def hostWord (host : ByteOrder) (data : Buf) (off : Nat) : Nat :=
  match host with
  | .little => leWord data off
  | .big => beWord data off

/-- Big-endian encoding of a 32-bit value. -/
def be32 (v : Nat) : Buf :=
  [u8 (v / 16777216), u8 (v / 65536), u8 (v / 256), u8 v]

/-- One update of the specification's checksum:
`s1 += word0 + s2; s2 += word1 + s1`, both sums modulo `2^32`. -/
def sumStep (w0 w1 : Nat) (s : Nat × Nat) : Nat × Nat :=
  let s1 := (s.1 + (w0 + s.2)) % 4294967296
  let s2 := (s.2 + (w1 + s1)) % 4294967296
  (s1, s2)

/-- The specification's running sums over `pairs` consecutive pairs of 4-byte words
of `data` starting at byte `off`, each word read by `word`. -/
def runningSums (word : Buf → Nat → Nat) (data : Buf) : Nat → Nat → Nat × Nat → Nat × Nat
  | 0, _, s => s
  | pairs + 1, off, s =>
    runningSums word data pairs (off + 8) (sumStep (word data off) (word data (off + 4)) s)

/-- The word reader the specification gives to each value of `native`. -/
def wordReader (host : ByteOrder) (native : Bool) : Buf → Nat → Nat :=
  if native then hostWord host else beWord

/-- The specification's `checksum(native, data, length, seed)`: the running sums over
the `length / 8` word pairs of `data`. -/
def checksum (host : ByteOrder) (native : Bool) (data : Buf) (length : Nat)
    (seed : Nat × Nat) : Nat × Nat :=
  runningSums (wordReader host native) data (length / 8) 0 seed

/-- The header after the four field stores of `formatWalIndexHeaderRevert`. -/
def revertFields (host : ByteOrder) (header : Buf)
    (max_frame n_pages frame_checksum1 frame_checksum2 : Nat) : Buf :=
  store32 host (store32 host (store32 host (store32 host header 16 max_frame) 20 n_pages) 24
    frame_checksum1) 28 frame_checksum2

/-- The header after the stores of its own checksum, before the copy. -/
def revertPrimary (host : ByteOrder) (header : Buf)
    (max_frame n_pages frame_checksum1 frame_checksum2 : Nat) : Buf :=
  store32 host
    (store32 host (revertFields host header max_frame n_pages frame_checksum1 frame_checksum2)
      40
      (runningSums (wordReader host (decide ((rd header 13).val = 0)))
        (revertFields host header max_frame n_pages frame_checksum1 frame_checksum2) 5 0
        (0, 0)).1)
    44
    (runningSums (wordReader host (decide ((rd header 13).val = 0)))
      (revertFields host header max_frame n_pages frame_checksum1 frame_checksum2) 5 0
      (0, 0)).2

/-- The buffer `formatWalIndexHeaderRevert` returns: the primary copy with its first
48 bytes copied onto bytes 48..95. -/
def revertResult (host : ByteOrder) (header : Buf)
    (max_frame n_pages frame_checksum1 frame_checksum2 : Nat) : Buf :=
  memcpy (revertPrimary host header max_frame n_pages frame_checksum1 frame_checksum2) 48
    (revertPrimary host header max_frame n_pages frame_checksum1 frame_checksum2) 0 48

/-! ## The VFS poll/commit/revert protocol -/

/-- Modelled from the spec: one WAL frame as exchanged with the replication layer, a
page number and the page bytes.  The VFS itself (`vfs.c`) is not among the sources;
only its integration test is. -/
structure VfsFrame where
  page_number : Nat
  data : Buf
  deriving DecidableEq, Repr

/-- Modelled from the spec: the per-file transaction state of the missing `vfs.c`,
section 4.4: `Idle`, `Pending` (a write transaction is buffered) and `Polled&LockHeld`;
the last two record the connection holding the write lock. -/
inductive TxPhase where
  | idle
  | pending (conn : Nat)
  | polled (conn : Nat)
  deriving DecidableEq, Repr

/-- Modelled from the spec: the state of one database file of the missing `vfs.c`:
the frames appended to the WAL file, the `mxFrame` of the WAL-index header (the
readers' visibility boundary), the Transaction Frame Buffer and the transaction
state. -/
structure VfsState where
  wal : List VfsFrame
  mxFrame : Nat
  buffer : List VfsFrame
  phase : TxPhase
  deriving DecidableEq, Repr

/-- Modelled from the spec: the operations on a file of the missing `vfs.c`: a write
transaction of a connection producing frames, `dqlite_vfs_poll`, `dqlite_vfs_commit`
and revert. -/
inductive VfsOp where
  | writeTransaction (conn : Nat) (frames : List VfsFrame)
  | poll
  | commit (frames : List VfsFrame)
  | revert
  deriving DecidableEq, Repr

/-- Modelled from the spec: the results of the operations of the missing `vfs.c`
(section 7): success, the frames handed out by poll, busy, invalid argument. -/
inductive VfsResult where
  | ok
  | polled (frames : List VfsFrame)
  | busy
  | invalidArgument
  deriving DecidableEq, Repr

/-- Modelled from the spec: a freshly opened file of the missing `vfs.c`: empty WAL,
`mxFrame = 0`, no transaction. -/
def vfsOpen : VfsState :=
  { wal := [], mxFrame := 0, buffer := [], phase := .idle }

/-- Modelled from the spec: one operation of the missing `vfs.c` (sections 4.2 to 4.4,
5 and 7).
* A write transaction takes the write lock and buffers its frames without touching
  `mxFrame`; while the lock is held it fails with busy.
* Poll returns the buffered frames in write order and clears the buffer; it neither
  advances `mxFrame` nor releases the write lock.
* Commit appends the given frames to the WAL, advances `mxFrame` to the new tail and
  releases the write lock; revert discards the buffer and releases the lock; either
  one without a transaction is rejected as an invalid argument and changes nothing. -/
def vfsStep (s : VfsState) : VfsOp → VfsState × VfsResult
  | .writeTransaction conn frames =>
    match s.phase with
    | .idle => ({ s with buffer := frames, phase := .pending conn }, .ok)
    | _ => (s, .busy)
  | .poll =>
    match s.phase with
    | .pending conn => ({ s with buffer := [], phase := .polled conn }, .polled s.buffer)
    | _ => (s, .polled [])
  | .commit frames =>
    match s.phase with
    | .idle => (s, .invalidArgument)
    | _ =>
      ({ wal := s.wal ++ frames, mxFrame := (s.wal ++ frames).length, buffer := [],
         phase := .idle }, .ok)
  | .revert =>
    match s.phase with
    | .idle => (s, .invalidArgument)
    | _ => ({ s with buffer := [], phase := .idle }, .ok)

/-- Modelled from the spec: a sequence of operations on a file of the missing `vfs.c`,
applied in order. -/
def vfsRun (s : VfsState) (ops : List VfsOp) : VfsState :=
  ops.foldl (fun st op => (vfsStep st op).1) s

/-- Modelled from the spec: the frames a reader of the missing `vfs.c` can see, the WAL
prefix up to `mxFrame` ("a reader's visibility boundary is governed solely by the
WalIndexHeader's mxFrame"). -/
def vfsVisible (s : VfsState) : List VfsFrame :=
  s.wal.take s.mxFrame

/-! ## Basic facts about the memory model -/

theorem rd_wr (buf : Buf) (i j : Nat) (b : Byte) :
    rd (wr buf i b) j = if i = j ∧ j < buf.length then b else rd buf j := by
  unfold rd wr
  by_cases hj : j < buf.length
  · rw [List.getD_eq_getElem _ _ (by simpa using hj), List.getElem_set,
      List.getD_eq_getElem _ _ hj]
    by_cases hij : i = j <;> simp [hij, hj]
  · have h1 : (buf.set i b).length ≤ j := by simpa using Nat.le_of_not_lt hj
    rw [List.getD_eq_default _ _ h1, List.getD_eq_default _ _ (Nat.le_of_not_lt hj)]
    simp [hj]

theorem rd_wr_ne (buf : Buf) (i j : Nat) (b : Byte) (h : i ≠ j) :
    rd (wr buf i b) j = rd buf j := by
  rw [rd_wr]; simp [h]

theorem rd_wr_same (buf : Buf) (i : Nat) (b : Byte) (h : i < buf.length) :
    rd (wr buf i b) i = b := by
  rw [rd_wr]; simp [h]

@[simp] theorem length_wr (buf : Buf) (i : Nat) (b : Byte) : (wr buf i b).length = buf.length := by
  simp [wr]

@[simp] theorem length_store32 (host : ByteOrder) (buf : Buf) (off v : Nat) :
    (store32 host buf off v).length = buf.length := by
  cases host <;> simp [store32]

@[simp] theorem length_formatPut32 (v : Nat) (buf : Buf) (off : Nat) :
    (formatPut32 v buf off).length = buf.length := by
  simp [formatPut32]

@[simp] theorem length_memcpy (dst : Buf) (dstOff : Nat) (src : Buf) (srcOff n : Nat) :
    (memcpy dst dstOff src srcOff n).length = dst.length := by
  induction n with
  | zero => rfl
  | succ k ih => simp [memcpy, ih]

theorem rd_append_left (a b : Buf) (i : Nat) (h : i < a.length) : rd (a ++ b) i = rd a i := by
  unfold rd; exact List.getD_append a b 0 i h

theorem rd_append_right (a b : Buf) (i : Nat) : rd (a ++ b) (a.length + i) = rd b i := by
  unfold rd
  rw [List.getD_append_right a b 0 (a.length + i) (Nat.le_add_right _ _)]
  simp

theorem u8_val (v : Nat) : (u8 v).val = v % 256 := rfl

theorem load32_eq_hostWord (host : ByteOrder) (buf : Buf) (off : Nat) :
    load32 host buf off = hostWord host buf off := by
  cases host <;> rfl

theorem hostWord_lt (host : ByteOrder) (buf : Buf) (off : Nat) :
    hostWord host buf off < 4294967296 := by
  have h0 := (rd buf off).isLt
  have h1 := (rd buf (off + 1)).isLt
  have h2 := (rd buf (off + 2)).isLt
  have h3 := (rd buf (off + 3)).isLt
  cases host <;> simp only [hostWord, leWord, beWord] <;> omega

theorem beWord_lt (buf : Buf) (off : Nat) : beWord buf off < 4294967296 :=
  hostWord_lt .big buf off

/-- Reading back the four bytes written by `formatPut32` in big-endian order. -/
theorem rd_formatPut32 (v : Nat) (buf : Buf) (off : Nat) (h : off + 4 ≤ buf.length) :
    rd (formatPut32 v buf off) off = u8 (v / 16777216) ∧
    rd (formatPut32 v buf off) (off + 1) = u8 (v / 65536) ∧
    rd (formatPut32 v buf off) (off + 2) = u8 (v / 256) ∧
    rd (formatPut32 v buf off) (off + 3) = u8 v := by
  simp only [formatPut32, Nat.shiftRight_eq_div_pow]
  refine ⟨?_, ?_, ?_, ?_⟩
  · rw [rd_wr_ne _ _ _ _ (by omega), rd_wr_ne _ _ _ _ (by omega), rd_wr_ne _ _ _ _ (by omega),
      rd_wr_same _ _ _ (by simpa using (by omega : off < buf.length))]
  · rw [rd_wr_ne _ _ _ _ (by omega), rd_wr_ne _ _ _ _ (by omega),
      rd_wr_same _ _ _ (by simpa using (by omega : off + 1 < buf.length))]
  · rw [rd_wr_ne _ _ _ _ (by omega),
      rd_wr_same _ _ _ (by simpa using (by omega : off + 2 < buf.length))]
  · rw [rd_wr_same _ _ _ (by simpa using (by omega : off + 3 < buf.length))]

theorem rd_formatPut32_other (v : Nat) (buf : Buf) (off j : Nat) (h : j < off ∨ off + 4 ≤ j) :
    rd (formatPut32 v buf off) j = rd buf j := by
  simp only [formatPut32]
  rw [rd_wr_ne _ _ _ _ (by omega), rd_wr_ne _ _ _ _ (by omega), rd_wr_ne _ _ _ _ (by omega),
    rd_wr_ne _ _ _ _ (by omega)]

/-- The big-endian decoder applied to the bytes written by `formatPut32`. -/
theorem formatGet32_eq_beWord (buf : Buf) (off : Nat) : formatGet32 buf off = beWord buf off := by
  have h0 := (rd buf off).isLt
  have h1 := (rd buf (off + 1)).isLt
  have h2 := (rd buf (off + 2)).isLt
  have h3 := (rd buf (off + 3)).isLt
  simp only [formatGet32, beWord, u32, Nat.shiftLeft_eq]
  omega

theorem beWord_formatPut32 (v : Nat) (buf : Buf) (off : Nat) (h : off + 4 ≤ buf.length) :
    beWord (formatPut32 v buf off) off = v % 4294967296 := by
  obtain ⟨h0, h1, h2, h3⟩ := rd_formatPut32 v buf off h
  simp only [beWord, h0, h1, h2, h3, u8_val]
  omega

/-- What the non-native branch feeds into the sums: the big-endian value of the
four bytes, on either host. -/
theorem put32ToWord_load32 (host : ByteOrder) (data : Buf) (off : Nat) :
    put32ToWord host (load32 host data off) = beWord data off := by
  have h0 := (rd data off).isLt
  have h1 := (rd data (off + 1)).isLt
  have h2 := (rd data (off + 2)).isLt
  have h3 := (rd data (off + 3)).isLt
  generalize hw : load32 host data off = w
  obtain ⟨e0, e1, e2, e3⟩ := rd_formatPut32 w [0, 0, 0, 0] 0 (by simp)
  simp only [Nat.zero_add] at e0 e1 e2 e3
  cases host <;>
    simp only [put32ToWord, load32, Nat.zero_add, e0, e1, e2, e3, u8_val, beWord] <;>
    simp only [load32] at hw <;> omega

/-! ## The checksum loops compute the specification's running sums -/

theorem sumStep_unfold (w0 w1 s1 s2 : Nat) :
    (u32 (s1 + u32 (w0 + s2)), u32 (s2 + u32 (w1 + u32 (s1 + u32 (w0 + s2))))) =
      sumStep w0 w1 (s1, s2) := by
  simp only [sumStep, u32, Prod.mk.injEq]
  constructor <;> omega

theorem runningSums_succ (word : Buf → Nat → Nat) (data : Buf) (k off : Nat) (s : Nat × Nat) :
    runningSums word data (k + 1) off s =
      runningSums word data k (off + 8) (sumStep (word data off) (word data (off + 4)) s) := rfl

theorem checksumLoopNative_eq (host : ByteOrder) (data : Buf) :
    ∀ (k fuel cur endOff s1 s2 : Nat), k + 1 ≤ fuel → endOff = cur + 8 * (k + 1) →
      checksumLoopNative host data endOff fuel cur s1 s2 =
        .ok (runningSums (hostWord host) data (k + 1) cur (s1, s2)) := by
  intro k
  induction k with
  | zero =>
    intro fuel cur endOff s1 s2 hf he
    obtain ⟨f, rfl⟩ : ∃ f, fuel = f + 1 := ⟨fuel - 1, by omega⟩
    have hc : ¬ (cur + 4 + 4 < endOff) := by omega
    simp only [checksumLoopNative, hc, if_false, runningSums, load32_eq_hostWord,
      sumStep_unfold]
  | succ k ih =>
    intro fuel cur endOff s1 s2 hf he
    obtain ⟨f, rfl⟩ : ∃ f, fuel = f + 1 := ⟨fuel - 1, by omega⟩
    have hc : cur + 4 + 4 < endOff := by omega
    rw [checksumLoopNative]
    simp only [hc, if_true]
    rw [ih f (cur + 4 + 4) endOff _ _ (by omega) (by omega)]
    rw [runningSums_succ _ _ (k + 1)]
    simp only [load32_eq_hostWord, sumStep_unfold, Nat.add_assoc]

theorem checksumLoopSwapped_eq (host : ByteOrder) (data : Buf) :
    ∀ (k fuel cur endOff s1 s2 : Nat), k + 1 ≤ fuel → endOff = cur + 8 * (k + 1) →
      checksumLoopSwapped host data endOff fuel cur s1 s2 =
        .ok (runningSums beWord data (k + 1) cur (s1, s2)) := by
  intro k
  induction k with
  | zero =>
    intro fuel cur endOff s1 s2 hf he
    obtain ⟨f, rfl⟩ : ∃ f, fuel = f + 1 := ⟨fuel - 1, by omega⟩
    have hc : ¬ (cur + 8 < endOff) := by omega
    simp only [checksumLoopSwapped, hc, if_false, runningSums, put32ToWord_load32,
      sumStep_unfold]
  | succ k ih =>
    intro fuel cur endOff s1 s2 hf he
    obtain ⟨f, rfl⟩ : ∃ f, fuel = f + 1 := ⟨fuel - 1, by omega⟩
    have hc : cur + 8 < endOff := by omega
    rw [checksumLoopSwapped]
    simp only [hc, if_true]
    rw [ih f (cur + 8) endOff _ _ (by omega) (by omega)]
    rw [runningSums_succ _ _ (k + 1)]
    simp only [put32ToWord_load32, sumStep_unfold]

/-- With its three assertions satisfied, `formatWalChecksumBytes` returns the
specification's running sums over the first `n / 8` word pairs of `data`. -/
theorem formatWalChecksumBytes_eq (host : ByteOrder) (native : Bool) (data : Buf) (k : Nat)
    (s : Nat × Nat) (hk : 1 ≤ k) (hle : 8 * k ≤ 65536) :
    formatWalChecksumBytes host native data (8 * k) (some s) =
      .ok (runningSums (wordReader host native) data k 0 s) := by
  obtain ⟨j, rfl⟩ : ∃ j, k = j + 1 := ⟨k - 1, by omega⟩
  have h1 : 8 * (j + 1) ≥ 8 := by omega
  have h2 : 8 * (j + 1) &&& 0x00000007 = 0 := by
    have := Nat.and_pow_two_sub_one_eq_mod (8 * (j + 1)) 3
    simp only [Nat.reducePow, Nat.add_one_sub_one] at this
    rw [this]; omega
  obtain ⟨a, b⟩ := s
  unfold formatWalChecksumBytes
  simp only [h1, h2, hle, not_true_eq_false, if_false]
  cases native
  · simp only [Bool.false_eq_true, if_false, wordReader]
    exact checksumLoopSwapped_eq host data j _ 0 _ a b (by omega) (by omega)
  · simp only [if_true, wordReader]
    exact checksumLoopNative_eq host data j _ 0 _ a b (by omega) (by omega)

/-- Running sums over `a + b` word pairs split after the first `a`. -/
theorem runningSums_add (word : Buf → Nat → Nat) (data : Buf) :
    ∀ (a b off : Nat) (s : Nat × Nat),
      runningSums word data (a + b) off s =
        runningSums word data b (off + 8 * a) (runningSums word data a off s) := by
  intro a
  induction a with
  | zero => intro b off s; simp [runningSums]
  | succ a ih =>
    intro b off s
    rw [show a + 1 + b = (a + b) + 1 by omega, runningSums, ih, runningSums]
    congr 1
    omega

/-- The word readers look at the four bytes of the word only. -/
theorem wordReader_congr (host : ByteOrder) (native : Bool) (d d' : Buf) (off off' : Nat)
    (h : ∀ i, i < 4 → rd d (off + i) = rd d' (off' + i)) :
    wordReader host native d off = wordReader host native d' off' := by
  have h0 := h 0 (by omega)
  have h1 := h 1 (by omega)
  have h2 := h 2 (by omega)
  have h3 := h 3 (by omega)
  simp only [Nat.add_zero] at h0
  cases native <;> cases host <;>
    simp only [wordReader, hostWord, beWord, leWord, h0, h1, h2, h3, if_true, if_false,
      Bool.false_eq_true]

/-- Running sums depend only on the bytes they cover. -/
theorem runningSums_congr (host : ByteOrder) (native : Bool) (d d' : Buf) :
    ∀ (k off off' : Nat) (s : Nat × Nat),
      (∀ i, i < 8 * k → rd d (off + i) = rd d' (off' + i)) →
      runningSums (wordReader host native) d k off s =
        runningSums (wordReader host native) d' k off' s := by
  intro k
  induction k with
  | zero => intro off off' s _; rfl
  | succ k ih =>
    intro off off' s h
    rw [runningSums, runningSums]
    rw [wordReader_congr host native d d' off off' (fun i hi => h i (by omega)),
      wordReader_congr host native d d' (off + 4) (off' + 4)
        (fun i hi => by
          have := h (4 + i) (by omega)
          simpa only [Nat.add_assoc] using this)]
    apply ih
    intro i hi
    have := h (8 + i) (by omega)
    simpa only [Nat.add_assoc] using this

theorem sumStep_lt (w0 w1 : Nat) (s : Nat × Nat) :
    (sumStep w0 w1 s).1 < 4294967296 ∧ (sumStep w0 w1 s).2 < 4294967296 := by
  simp only [sumStep]
  constructor <;> omega

theorem sumStep_u32_seed (w0 w1 a b : Nat) :
    sumStep w0 w1 (u32 a, u32 b) = sumStep w0 w1 (a, b) := by
  simp only [sumStep, u32, Prod.mk.injEq]
  constructor <;> omega

/-- Running sums over at least one word pair are 32-bit values. -/
theorem runningSums_lt (word : Buf → Nat → Nat) (data : Buf) :
    ∀ (k off : Nat) (s : Nat × Nat), s.1 < 4294967296 ∧ s.2 < 4294967296 →
      (runningSums word data k off s).1 < 4294967296 ∧
        (runningSums word data k off s).2 < 4294967296 := by
  intro k
  induction k with
  | zero => intro off s hs; exact hs
  | succ k ih =>
    intro off s _
    rw [runningSums_succ]
    exact ih _ _ (sumStep_lt _ _ _)

theorem runningSums_pos_lt (word : Buf → Nat → Nat) (data : Buf) (k off : Nat) (s : Nat × Nat)
    (hk : 1 ≤ k) :
    (runningSums word data k off s).1 < 4294967296 ∧
      (runningSums word data k off s).2 < 4294967296 := by
  obtain ⟨j, rfl⟩ : ∃ j, k = j + 1 := ⟨k - 1, by omega⟩
  rw [runningSums_succ]
  exact runningSums_lt word data j _ _ (sumStep_lt _ _ _)

theorem runningSums_u32_seed (word : Buf → Nat → Nat) (data : Buf) (k off a b : Nat)
    (hk : 1 ≤ k) :
    runningSums word data k off (u32 a, u32 b) = runningSums word data k off (a, b) := by
  obtain ⟨j, rfl⟩ : ∃ j, k = j + 1 := ⟨k - 1, by omega⟩
  rw [runningSums_succ, runningSums_succ, sumStep_u32_seed]

theorem beWord_congr (d d' : Buf) (off off' : Nat)
    (h : ∀ i, i < 4 → rd d (off + i) = rd d' (off' + i)) : beWord d off = beWord d' off' :=
  wordReader_congr .big false d d' off off' h

theorem rd_store32_other (host : ByteOrder) (buf : Buf) (off v j : Nat)
    (h : j < off ∨ off + 4 ≤ j) : rd (store32 host buf off v) j = rd buf j := by
  cases host <;> simp only [store32] <;>
    rw [rd_wr_ne _ _ _ _ (by omega), rd_wr_ne _ _ _ _ (by omega), rd_wr_ne _ _ _ _ (by omega),
      rd_wr_ne _ _ _ _ (by omega)]

/-- A host-order word read returns the value just stored, reduced to 32 bits. -/
theorem load32_store32 (host : ByteOrder) (buf : Buf) (off v : Nat) (h : off + 4 ≤ buf.length) :
    load32 host (store32 host buf off v) off = v % 4294967296 := by
  cases host <;> simp only [store32, load32]
  · rw [rd_wr_ne _ _ _ _ (by omega), rd_wr_ne _ _ _ _ (by omega), rd_wr_ne _ _ _ _ (by omega),
      rd_wr_same _ _ _ (by omega), rd_wr_ne _ _ _ _ (by omega), rd_wr_ne _ _ _ _ (by omega),
      rd_wr_same _ _ _ (by simpa using (by omega : off + 1 < buf.length)),
      rd_wr_ne _ _ _ _ (by omega),
      rd_wr_same _ _ _ (by simpa using (by omega : off + 2 < buf.length)),
      rd_wr_same _ _ _ (by simpa using (by omega : off + 3 < buf.length))]
    simp only [u8_val]
    omega
  · rw [rd_wr_ne _ _ _ _ (by omega), rd_wr_ne _ _ _ _ (by omega), rd_wr_ne _ _ _ _ (by omega),
      rd_wr_same _ _ _ (by omega), rd_wr_ne _ _ _ _ (by omega), rd_wr_ne _ _ _ _ (by omega),
      rd_wr_same _ _ _ (by simpa using (by omega : off + 1 < buf.length)),
      rd_wr_ne _ _ _ _ (by omega),
      rd_wr_same _ _ _ (by simpa using (by omega : off + 2 < buf.length)),
      rd_wr_same _ _ _ (by simpa using (by omega : off + 3 < buf.length))]
    simp only [u8_val]
    omega

/-- The first eight bytes of a frame header after the two leading `formatPut32`. -/
theorem rd_frame_first8 (pn ds : Nat) (header : Buf) (h : 8 ≤ header.length) (i : Nat)
    (hi : i < 8) :
    rd (formatPut32 ds (formatPut32 pn header 0) 4) i = rd (be32 pn ++ be32 ds) i := by
  obtain ⟨p0, p1, p2, p3⟩ := rd_formatPut32 pn header 0 (by omega)
  obtain ⟨q0, q1, q2, q3⟩ := rd_formatPut32 ds (formatPut32 pn header 0) 4 (by simpa using h)
  simp only [Nat.zero_add] at p0 p1 p2 p3
  simp only [Nat.reduceAdd] at q0 q1 q2 q3
  have r : ∀ j, j < 4 → rd (formatPut32 ds (formatPut32 pn header 0) 4) j =
      rd (formatPut32 pn header 0) j := fun j hj => rd_formatPut32_other _ _ _ _ (Or.inl hj)
  interval_cases i
  · rw [r 0 (by omega), p0]; rfl
  · rw [r 1 (by omega), p1]; rfl
  · rw [r 2 (by omega), p2]; rfl
  · rw [r 3 (by omega), p3]; rfl
  · rw [q0]; rfl
  · rw [q1]; rfl
  · rw [q2]; rfl
  · rw [q3]; rfl

/-- Closed form of `formatWalPutFrameHeader` when the page size passes the checksum's
assertions. -/
theorem formatWalPutFrameHeader_eq (host : ByteOrder) (native : Bool)
    (page_number database_size salt1 salt2 checksum1 checksum2 : Nat) (header page : Buf)
    (k : Nat) (hk : 1 ≤ k) (hle : 8 * k ≤ 65536) :
    formatWalPutFrameHeader host native page_number database_size salt1 salt2 checksum1
        checksum2 header page (8 * k) =
      .ok (runningSums (wordReader host native) page k 0
            (runningSums (wordReader host native)
              (formatPut32 database_size (formatPut32 page_number header 0) 4) 1 0
              (checksum1, checksum2)),
          formatPut32
            (runningSums (wordReader host native) page k 0
              (runningSums (wordReader host native)
                (formatPut32 database_size (formatPut32 page_number header 0) 4) 1 0
                (checksum1, checksum2))).2
            (formatPut32
              (runningSums (wordReader host native) page k 0
                (runningSums (wordReader host native)
                  (formatPut32 database_size (formatPut32 page_number header 0) 4) 1 0
                  (checksum1, checksum2))).1
              (store32 host
                (store32 host (formatPut32 database_size (formatPut32 page_number header 0) 4)
                  8 salt1) 12 salt2) 16) 20) := by
  unfold formatWalPutFrameHeader
  have e1 := formatWalChecksumBytes_eq host native
    (formatPut32 database_size (formatPut32 page_number header 0) 4) 1
    (u32 checksum1, u32 checksum2) (by omega) (by omega)
  simp only [Nat.mul_one] at e1
  simp only [e1]
  rw [formatWalChecksumBytes_eq host native page k _ hk hle]
  simp only [runningSums_u32_seed _ _ 1 0 checksum1 checksum2 (Nat.le_refl 1)]

/-! ## Page-size decoding -/

theorem land_pred_even (m : Nat) (hm : 1 ≤ m) :
    (2 * m - 1) &&& (2 * m) = 2 * ((m - 1) &&& m) := by
  have h1 : 2 * m - 1 = Nat.bit true (m - 1) := by rw [Nat.bit_val]; simp; omega
  have h2 : 2 * m = Nat.bit false m := by rw [Nat.bit_val]; simp
  rw [h1, h2, Nat.land_bit, Nat.bit_val]; simp

theorem land_pred_odd (m : Nat) : (2 * m + 1 - 1) &&& (2 * m + 1) = 2 * m := by
  have h1 : 2 * m + 1 - 1 = Nat.bit false m := by rw [Nat.bit_val]; simp
  have h2 : 2 * m + 1 = Nat.bit true m := by rw [Nat.bit_val]; simp
  rw [h1, h2, Nat.land_bit, Nat.bit_val]; simp

/-- The bit test `((v - 1) & v) == 0` singles out the powers of two. -/
theorem land_pred_eq_zero_iff :
    ∀ v : Nat, 1 ≤ v → ((v - 1) &&& v = 0 ↔ ∃ k, v = 2 ^ k) := by
  intro v
  induction v using Nat.strong_induction_on with
  | _ v ih =>
    intro hv
    rcases Nat.mod_two_eq_zero_or_one v with h | h
    · obtain ⟨m, rfl⟩ : ∃ m, v = 2 * m := ⟨v / 2, by omega⟩
      have hm : 1 ≤ m := by omega
      rw [land_pred_even m hm]
      have hrec := ih m (by omega) hm
      constructor
      · intro h0
        obtain ⟨k, hk⟩ := hrec.mp (by omega)
        exact ⟨k + 1, by rw [hk, pow_succ]; ring⟩
      · rintro ⟨k, hk⟩
        cases k with
        | zero => rw [pow_zero] at hk; omega
        | succ k =>
          have hm2 : m = 2 ^ k := by rw [pow_succ] at hk; omega
          have h0 := hrec.mpr ⟨k, hm2⟩
          rw [h0]
    · obtain ⟨m, rfl⟩ : ∃ m, v = 2 * m + 1 := ⟨v / 2, by omega⟩
      rw [land_pred_odd]
      constructor
      · intro h0
        have hm0 : m = 0 := by omega
        subst hm0
        exact ⟨0, rfl⟩
      · rintro ⟨k, hk⟩
        cases k with
        | zero => rw [pow_zero] at hk; omega
        | succ k => rw [pow_succ] at hk; omega

/-- What `formatDecodePageSize` returns, by the big-endian value `v` of its four bytes. -/
theorem formatDecodePageSize_spec (buf : Buf) :
    (beWord buf 0 = 1 → formatDecodePageSize buf = 65536) ∧
    ((∃ k, beWord buf 0 = 2 ^ k) → 512 ≤ beWord buf 0 → beWord buf 0 ≤ 32768 →
      formatDecodePageSize buf = beWord buf 0) ∧
    (beWord buf 0 ≠ 1 →
      ¬ ((∃ k, beWord buf 0 = 2 ^ k) ∧ 512 ≤ beWord buf 0 ∧ beWord buf 0 ≤ 32768) →
      formatDecodePageSize buf = 0) := by
  have hlt := beWord_lt buf 0
  simp only [formatDecodePageSize, formatGet32_eq_beWord, FORMAT__PAGE_SIZE_MAX,
    FORMAT__PAGE_SIZE_MIN]
  generalize beWord buf 0 = v at hlt ⊢
  have hpred : ∀ w, 1 ≤ w → w < 4294967296 → u32 (w + 4294967296 - 1) = w - 1 := by
    intro w h1 h2; simp only [u32]; omega
  refine ⟨?_, ?_, ?_⟩
  · intro h1; simp [h1]
  · intro hp h512 hmax
    have hne : v ≠ 1 := by omega
    have h3 : ¬ (v < 512) := by omega
    have h4 : ¬ (v > 65536 / 2) := by omega
    rw [if_neg hne, if_neg h3, if_neg h4, hpred v (by omega) hlt]
    have hz := (land_pred_eq_zero_iff v (by omega)).mpr hp
    simp [hz]
  · intro hne hnot
    rw [if_neg hne]
    by_cases h3 : v < 512
    · rw [if_pos h3]
    · rw [if_neg h3]
      by_cases h4 : v > 65536 / 2
      · rw [if_pos h4]
      · rw [if_neg h4, hpred v (by omega) hlt]
        have hnz : (v - 1) &&& v ≠ 0 := by
          intro hz
          exact hnot ⟨(land_pred_eq_zero_iff v (by omega)).mp hz, by omega, by omega⟩
        rw [if_pos hnz]

/-! ## The WAL-index header revert -/

theorem rd_memcpy (dst : Buf) (dstOff : Nat) (src : Buf) (srcOff : Nat) :
    ∀ (n j : Nat),
      rd (memcpy dst dstOff src srcOff n) j =
        if dstOff ≤ j ∧ j < dstOff + n ∧ j < dst.length then rd src (srcOff + (j - dstOff))
        else rd dst j := by
  intro n
  induction n with
  | zero => intro j; rw [memcpy, if_neg (by omega)]
  | succ k ih =>
    intro j
    rw [memcpy, rd_wr, ih, length_memcpy]
    by_cases h1 : dstOff + k = j
    · by_cases h2 : j < dst.length
      · have e : j - dstOff = k := by omega
        rw [if_pos ⟨h1, h2⟩, if_pos ⟨by omega, by omega, h2⟩, e]
      · rw [if_neg (by tauto), if_neg (by omega), if_neg (by omega)]
    · rw [if_neg (by tauto)]
      by_cases h3 : dstOff ≤ j ∧ j < dstOff + k ∧ j < dst.length
      · rw [if_pos h3, if_pos ⟨h3.1, by omega, h3.2.2⟩]
      · rw [if_neg h3, if_neg (by omega)]

theorem load32_congr (host : ByteOrder) (d d' : Buf) (off off' : Nat)
    (h : ∀ i, i < 4 → rd d (off + i) = rd d' (off' + i)) :
    load32 host d off = load32 host d' off' := by
  rw [load32_eq_hostWord, load32_eq_hostWord]
  exact wordReader_congr host true d d' off off' h

/-- Closed form of `formatWalIndexHeaderRevert`: it always returns. -/
theorem formatWalIndexHeaderRevert_eq (host : ByteOrder) (header : Buf)
    (max_frame n_pages frame_checksum1 frame_checksum2 : Nat) :
    formatWalIndexHeaderRevert host header max_frame n_pages frame_checksum1 frame_checksum2 =
      .ok (memcpy
        (revertPrimary host header max_frame n_pages frame_checksum1 frame_checksum2) 48
        (revertPrimary host header max_frame n_pages frame_checksum1 frame_checksum2) 0 48) := by
  unfold formatWalIndexHeaderRevert
  have e := formatWalChecksumBytes_eq host (decide ((rd header 13).val = 0))
    (revertFields host header max_frame n_pages frame_checksum1 frame_checksum2) 5 (0, 0)
    (by omega) (by omega)
  simp only [Nat.reduceMul, revertFields] at e
  simp only [e, FORMAT__WAL_IDX_HDR_SIZE, revertPrimary, revertFields]

@[simp] theorem length_revertFields (host : ByteOrder) (header : Buf) (a b c d : Nat) :
    (revertFields host header a b c d).length = header.length := by
  simp [revertFields]

@[simp] theorem length_revertPrimary (host : ByteOrder) (header : Buf) (a b c d : Nat) :
    (revertPrimary host header a b c d).length = header.length := by
  simp [revertPrimary]

theorem rd_revertFields_other (host : ByteOrder) (header : Buf) (a b c d j : Nat)
    (h : j < 16 ∨ 32 ≤ j) : rd (revertFields host header a b c d) j = rd header j := by
  simp only [revertFields]
  rw [rd_store32_other _ _ _ _ _ (by omega), rd_store32_other _ _ _ _ _ (by omega),
    rd_store32_other _ _ _ _ _ (by omega), rd_store32_other _ _ _ _ _ (by omega)]

theorem rd_revertPrimary_other (host : ByteOrder) (header : Buf) (a b c d j : Nat)
    (h : j < 40 ∨ 48 ≤ j) :
    rd (revertPrimary host header a b c d) j = rd (revertFields host header a b c d) j := by
  simp only [revertPrimary]
  rw [rd_store32_other _ _ _ _ _ (by omega), rd_store32_other _ _ _ _ _ (by omega)]

/-- Bytes of the reverted header in terms of the primary copy. -/
theorem rd_revert_result (host : ByteOrder) (header : Buf) (a b c d j : Nat)
    (hlen : 96 ≤ header.length) :
    rd (memcpy (revertPrimary host header a b c d) 48 (revertPrimary host header a b c d) 0 48)
        j =
      if 48 ≤ j ∧ j < 96 then rd (revertPrimary host header a b c d) (j - 48)
      else rd (revertPrimary host header a b c d) j := by
  rw [rd_memcpy, length_revertPrimary]
  by_cases h : 48 ≤ j ∧ j < 96
  · rw [if_pos ⟨h.1, by omega, by omega⟩, if_pos h, Nat.zero_add]
  · rw [if_neg (by omega), if_neg h]

/-- The four rewritten words of the primary copy. -/
theorem load32_revertFields (host : ByteOrder) (header : Buf) (a b c d : Nat)
    (hlen : 32 ≤ header.length) :
    load32 host (revertFields host header a b c d) 16 = a % 4294967296 ∧
    load32 host (revertFields host header a b c d) 20 = b % 4294967296 ∧
    load32 host (revertFields host header a b c d) 24 = c % 4294967296 ∧
    load32 host (revertFields host header a b c d) 28 = d % 4294967296 := by
  simp only [revertFields]
  refine ⟨?_, ?_, ?_, ?_⟩
  · rw [load32_congr host _ (store32 host header 16 a) 16 16 (fun i hi => by
        rw [rd_store32_other _ _ _ _ _ (by omega), rd_store32_other _ _ _ _ _ (by omega),
          rd_store32_other _ _ _ _ _ (by omega)])]
    exact load32_store32 host header 16 a (by omega)
  · rw [load32_congr host _ (store32 host (store32 host header 16 a) 20 b) 20 20
        (fun i hi => by
          rw [rd_store32_other _ _ _ _ _ (by omega), rd_store32_other _ _ _ _ _ (by omega)])]
    exact load32_store32 host _ 20 b (by simp; omega)
  · rw [load32_congr host _
        (store32 host (store32 host (store32 host header 16 a) 20 b) 24 c) 24 24
        (fun i hi => by rw [rd_store32_other _ _ _ _ _ (by omega)])]
    exact load32_store32 host _ 24 c (by simp; omega)
  · exact load32_store32 host _ 28 d (by simp; omega)

/-! ## The WAL magic -/

/-- Masking a 32-bit value with `0xFFFFFFFE` clears its least significant bit. -/
theorem land_clear_lsb (m : Nat) (h : m < 4294967296) : m &&& 0xFFFFFFFE = m - m % 2 := by
  have h1 : m = Nat.bit (decide (m % 2 = 1)) (m / 2) := by
    rw [Nat.bit_val]
    rcases Nat.mod_two_eq_zero_or_one m with h0 | h0 <;> simp [h0] <;> omega
  have h2 : (0xFFFFFFFE : Nat) = Nat.bit false (2 ^ 31 - 1) := by
    rw [Nat.bit_val]; rfl
  have h3 : m / 2 &&& (2 ^ 31 - 1) = m / 2 := by
    rw [Nat.and_pow_two_sub_one_eq_mod]
    exact Nat.mod_eq_of_lt (by omega)
  calc m &&& 0xFFFFFFFE
      = Nat.bit (decide (m % 2 = 1)) (m / 2) &&& Nat.bit false (2 ^ 31 - 1) := by
        rw [← h1, ← h2]
    _ = Nat.bit false (m / 2) := by rw [Nat.land_bit, h3, Bool.and_false]
    _ = m - m % 2 := by rw [Nat.bit_val]; simp; omega

theorem land_one (m : Nat) : m &&& 0x00000001 = m % 2 := by
  exact Nat.and_pow_two_sub_one_eq_mod m 1

/-- What `formatWalGetNativeChecksum` returns, by the big-endian magic. -/
theorem formatWalGetNativeChecksum_eq (header : Buf) :
    formatWalGetNativeChecksum header =
      if beWord header 0 - beWord header 0 % 2 = 0x377f0682 then
        .ok (decide (beWord header 0 % 2 = 0))
      else .assertionFailure := by
  have hlt := beWord_lt header 0
  simp only [formatWalGetNativeChecksum, formatGet32_eq_beWord, FORMAT__WAL_MAGIC,
    land_clear_lsb _ hlt, land_one]
  by_cases h : beWord header 0 - beWord header 0 % 2 = 0x377f0682
  · rw [if_neg (by simpa using h), if_pos h]
    rcases Nat.mod_two_eq_zero_or_one (beWord header 0) with h0 | h0 <;> simp [h0]
  · rw [if_pos (by simpa using h), if_neg h]

/-! ## Bytes of the frame header -/

/-- Storing a word that was loaded in host order writes back the four bytes it was
loaded from. -/
theorem rd_store32_load32 (host : ByteOrder) (buf w : Buf) (off off' i : Nat) (hi : i < 4)
    (h : off + 4 ≤ buf.length) :
    rd (store32 host buf off (load32 host w off')) (off + i) = rd w (off' + i) := by
  have h0 := (rd w off').isLt
  have h1 := (rd w (off' + 1)).isLt
  have h2 := (rd w (off' + 2)).isLt
  have h3 := (rd w (off' + 3)).isLt
  cases host <;> simp only [store32, load32] <;> interval_cases i
  · simp only [Nat.add_zero]
    rw [rd_wr_ne _ _ _ _ (by omega), rd_wr_ne _ _ _ _ (by omega),
      rd_wr_ne _ _ _ _ (by omega), rd_wr_same _ _ _ (by omega)]
    apply Fin.ext; rw [u8_val]; omega
  · rw [rd_wr_ne _ _ _ _ (by omega), rd_wr_ne _ _ _ _ (by omega),
      rd_wr_same _ _ _ (by simpa using (by omega : off + 1 < buf.length))]
    apply Fin.ext; rw [u8_val]; omega
  · rw [rd_wr_ne _ _ _ _ (by omega),
      rd_wr_same _ _ _ (by simpa using (by omega : off + 2 < buf.length))]
    apply Fin.ext; rw [u8_val]; omega
  · rw [rd_wr_same _ _ _ (by simpa using (by omega : off + 3 < buf.length))]
    apply Fin.ext; rw [u8_val]; omega
  · simp only [Nat.add_zero]
    rw [rd_wr_ne _ _ _ _ (by omega), rd_wr_ne _ _ _ _ (by omega),
      rd_wr_ne _ _ _ _ (by omega), rd_wr_same _ _ _ (by omega)]
    apply Fin.ext; rw [u8_val]; omega
  · rw [rd_wr_ne _ _ _ _ (by omega), rd_wr_ne _ _ _ _ (by omega),
      rd_wr_same _ _ _ (by simpa using (by omega : off + 1 < buf.length))]
    apply Fin.ext; rw [u8_val]; omega
  · rw [rd_wr_ne _ _ _ _ (by omega),
      rd_wr_same _ _ _ (by simpa using (by omega : off + 2 < buf.length))]
    apply Fin.ext; rw [u8_val]; omega
  · rw [rd_wr_same _ _ _ (by simpa using (by omega : off + 3 < buf.length))]
    apply Fin.ext; rw [u8_val]; omega

/-- Bytes 0..15 of the header written by `formatWalPutFrameHeader` are those present
before the two checksum words are stored. -/
theorem rd_frame_below16 (host : ByteOrder) (c1 c2 s1 s2 : Nat) (H : Buf) (j : Nat)
    (hj : j < 16) :
    rd (formatPut32 c2 (formatPut32 c1 (store32 host (store32 host H 8 s1) 12 s2) 16) 20) j =
      rd (store32 host (store32 host H 8 s1) 12 s2) j := by
  rw [rd_formatPut32_other _ _ _ _ (Or.inl (by omega)),
    rd_formatPut32_other _ _ _ _ (Or.inl (by omega))]

/-! ## The checksum stored by the revert -/

/-- The running sums over the first 40 bytes of the reverted header are those over the
header as it stood when the checksum was computed. -/
theorem revert_sums_congr (host : ByteOrder) (native : Bool) (header : Buf) (a b c d : Nat)
    (hlen : 96 ≤ header.length) :
    runningSums (wordReader host native)
        (memcpy (revertPrimary host header a b c d) 48 (revertPrimary host header a b c d) 0 48)
        5 0 (0, 0) =
      runningSums (wordReader host native) (revertFields host header a b c d) 5 0 (0, 0) :=
  runningSums_congr host native _ _ 5 0 0 _ (fun i hi => by
    rw [rd_revert_result _ _ _ _ _ _ _ hlen, if_neg (by omega),
      rd_revertPrimary_other _ _ _ _ _ _ _ (by omega)])

/-- The two host-order words at bytes 40..47 of the reverted header are the running
sums computed with the word order `!header[13]`. -/
theorem revert_stored_words (host : ByteOrder) (header : Buf) (a b c d : Nat)
    (hlen : 96 ≤ header.length) :
    (load32 host
        (memcpy (revertPrimary host header a b c d) 48 (revertPrimary host header a b c d) 0 48)
        40,
      load32 host
        (memcpy (revertPrimary host header a b c d) 48 (revertPrimary host header a b c d) 0 48)
        44) =
      runningSums (wordReader host (decide ((rd header 13).val = 0)))
        (revertFields host header a b c d) 5 0 (0, 0) := by
  have hlt := runningSums_pos_lt (wordReader host (decide ((rd header 13).val = 0)))
    (revertFields host header a b c d) 5 0 (0, 0) (by omega)
  have w40 : load32 host
      (memcpy (revertPrimary host header a b c d) 48 (revertPrimary host header a b c d) 0 48)
      40 =
      (runningSums (wordReader host (decide ((rd header 13).val = 0)))
        (revertFields host header a b c d) 5 0 (0, 0)).1 := by
    rw [load32_congr host _ (revertPrimary host header a b c d) 40 40
        (fun i hi => by rw [rd_revert_result _ _ _ _ _ _ _ hlen, if_neg (by omega)])]
    unfold revertPrimary
    rw [load32_congr host _ (store32 host (revertFields host header a b c d) 40
        (runningSums (wordReader host (decide ((rd header 13).val = 0)))
          (revertFields host header a b c d) 5 0 (0, 0)).1) 40 40
        (fun i hi => by rw [rd_store32_other _ _ _ _ _ (by omega)]),
      load32_store32 _ _ _ _ (by simp; omega)]
    exact Nat.mod_eq_of_lt hlt.1
  have w44 : load32 host
      (memcpy (revertPrimary host header a b c d) 48 (revertPrimary host header a b c d) 0 48)
      44 =
      (runningSums (wordReader host (decide ((rd header 13).val = 0)))
        (revertFields host header a b c d) 5 0 (0, 0)).2 := by
    rw [load32_congr host _ (revertPrimary host header a b c d) 44 44
        (fun i hi => by rw [rd_revert_result _ _ _ _ _ _ _ hlen, if_neg (by omega)])]
    unfold revertPrimary
    rw [load32_store32 _ _ _ _ (by simp; omega)]
    exact Nat.mod_eq_of_lt hlt.2
  rw [w40, w44]

/-- On a big-endian host the native and the non-native word readers coincide. -/
theorem wordReader_big (native : Bool) : wordReader .big native = beWord := by
  cases native <;> rfl

theorem sumStep_injective (w0 w1 : Nat) (s t : Nat × Nat)
    (hs : s.1 < 4294967296 ∧ s.2 < 4294967296) (ht : t.1 < 4294967296 ∧ t.2 < 4294967296)
    (h : sumStep w0 w1 s = sumStep w0 w1 t) : s = t := by
  obtain ⟨s1, s2⟩ := s
  obtain ⟨t1, t2⟩ := t
  simp only [sumStep, Prod.mk.injEq] at h hs ht ⊢
  obtain ⟨e1, e2⟩ := h
  rw [e1] at e2
  have h2 : s2 = t2 := by omega
  subst h2
  exact ⟨by omega, rfl⟩

/-- The running sums are injective in their 32-bit seed. -/
theorem runningSums_injective (word : Buf → Nat → Nat) (data : Buf) :
    ∀ (k off : Nat) (s t : Nat × Nat),
      s.1 < 4294967296 ∧ s.2 < 4294967296 → t.1 < 4294967296 ∧ t.2 < 4294967296 →
      runningSums word data k off s = runningSums word data k off t → s = t := by
  intro k
  induction k with
  | zero => intro off s t _ _ h; exact h
  | succ k ih =>
    intro off s t hs ht h
    rw [runningSums_succ, runningSums_succ] at h
    exact sumStep_injective _ _ s t hs ht
      (ih _ _ _ (sumStep_lt _ _ _) (sumStep_lt _ _ _) h)

/-! ## The VFS protocol model -/

theorem vfsRun_cons (s : VfsState) (op : VfsOp) (ops : List VfsOp) :
    vfsRun s (op :: ops) = vfsRun (vfsStep s op).1 ops := rfl

/-- An operation other than commit leaves the WAL and `mxFrame` alone. -/
theorem vfsStep_keeps_wal (s : VfsState) (op : VfsOp) (h : ∀ fs, op ≠ .commit fs) :
    (vfsStep s op).1.wal = s.wal ∧ (vfsStep s op).1.mxFrame = s.mxFrame := by
  cases op with
  | writeTransaction conn frames => cases hp : s.phase <;> simp [vfsStep, hp]
  | poll => cases hp : s.phase <;> simp [vfsStep, hp]
  | commit frames => exact absurd rfl (h frames)
  | revert => cases hp : s.phase <;> simp [vfsStep, hp]

theorem vfsRun_keeps_wal :
    ∀ (ops : List VfsOp) (s : VfsState), (∀ op ∈ ops, ∀ fs, op ≠ .commit fs) →
      (vfsRun s ops).wal = s.wal ∧ (vfsRun s ops).mxFrame = s.mxFrame := by
  intro ops
  induction ops with
  | nil => intro s _; exact ⟨rfl, rfl⟩
  | cons op ops ih =>
    intro s h
    rw [vfsRun_cons]
    obtain ⟨h1, h2⟩ := vfsStep_keeps_wal s op (h op (List.mem_cons_self _ _))
    obtain ⟨h3, h4⟩ := ih (vfsStep s op).1 (fun o ho => h o (List.mem_cons_of_mem _ ho))
    exact ⟨h3.trans h1, h4.trans h2⟩

/-- Every frame of the WAL after an operation was there before or was passed to a
commit. -/
theorem vfsStep_wal_mem (s : VfsState) (op : VfsOp) (f : VfsFrame)
    (hf : f ∈ (vfsStep s op).1.wal) : f ∈ s.wal ∨ ∃ fs, op = .commit fs ∧ f ∈ fs := by
  cases op with
  | writeTransaction conn frames =>
    have hk := (vfsStep_keeps_wal s (.writeTransaction conn frames)
      (by intro fs h; cases h)).1
    rw [hk] at hf
    exact Or.inl hf
  | poll =>
    have hk := (vfsStep_keeps_wal s .poll (by intro fs h; cases h)).1
    rw [hk] at hf
    exact Or.inl hf
  | revert =>
    have hk := (vfsStep_keeps_wal s .revert (by intro fs h; cases h)).1
    rw [hk] at hf
    exact Or.inl hf
  | commit frames =>
    cases hp : s.phase with
    | idle =>
      simp only [vfsStep, hp] at hf
      exact Or.inl hf
    | pending conn =>
      simp only [vfsStep, hp, List.mem_append] at hf
      exact hf.elim Or.inl (fun h => Or.inr ⟨frames, rfl, h⟩)
    | polled conn =>
      simp only [vfsStep, hp, List.mem_append] at hf
      exact hf.elim Or.inl (fun h => Or.inr ⟨frames, rfl, h⟩)

theorem vfsRun_wal_mem :
    ∀ (ops : List VfsOp) (s : VfsState) (f : VfsFrame), f ∈ (vfsRun s ops).wal →
      f ∈ s.wal ∨ ∃ fs, VfsOp.commit fs ∈ ops ∧ f ∈ fs := by
  intro ops
  induction ops with
  | nil => intro s f hf; exact Or.inl hf
  | cons op ops ih =>
    intro s f hf
    rw [vfsRun_cons] at hf
    rcases ih (vfsStep s op).1 f hf with h | ⟨fs, hmem, hfs⟩
    · rcases vfsStep_wal_mem s op f h with h' | ⟨fs, rfl, hfs⟩
      · exact Or.inl h'
      · exact Or.inr ⟨fs, List.mem_cons_self _ _, hfs⟩
    · exact Or.inr ⟨fs, List.mem_cons_of_mem _ hmem, hfs⟩

/-- While the write lock is held a write transaction is refused and changes nothing. -/
theorem vfsStep_write_busy (s : VfsState) (conn : Nat) (frames : List VfsFrame)
    (h : s.phase ≠ .idle) : vfsStep s (.writeTransaction conn frames) = (s, .busy) := by
  cases hp : s.phase with
  | idle => exact absurd hp h
  | pending c => simp [vfsStep, hp]
  | polled c => simp [vfsStep, hp]

/-- Only commit and revert release the write lock. -/
theorem vfsStep_keeps_lock (s : VfsState) (op : VfsOp) (h : s.phase ≠ .idle)
    (hop : op ≠ .revert ∧ ∀ fs, op ≠ .commit fs) : (vfsStep s op).1.phase ≠ .idle := by
  cases op with
  | writeTransaction conn frames => rw [vfsStep_write_busy s conn frames h]; exact h
  | poll =>
    cases hp : s.phase with
    | idle => exact absurd hp h
    | pending c => simp [vfsStep, hp]
    | polled c => simp [vfsStep, hp]
  | commit frames => exact absurd rfl (hop.2 frames)
  | revert => exact absurd rfl hop.1

theorem vfsRun_keeps_lock :
    ∀ (ops : List VfsOp) (s : VfsState), s.phase ≠ .idle →
      (∀ op ∈ ops, op ≠ .revert ∧ ∀ fs, op ≠ .commit fs) → (vfsRun s ops).phase ≠ .idle := by
  intro ops
  induction ops with
  | nil => intro s h _; exact h
  | cons op ops ih =>
    intro s h hops
    rw [vfsRun_cons]
    exact ih _ (vfsStep_keeps_lock s op h (hops op (List.mem_cons_self _ _)))
      (fun o ho => hops o (List.mem_cons_of_mem _ ho))

/-- A write transaction that succeeded holds the write lock afterwards. -/
theorem vfsStep_write_ok_locks (s : VfsState) (conn : Nat) (frames : List VfsFrame)
    (h : (vfsStep s (.writeTransaction conn frames)).2 = .ok) :
    (vfsStep s (.writeTransaction conn frames)).1.phase ≠ .idle := by
  cases hp : s.phase with
  | idle => simp [vfsStep, hp]
  | pending c => simp [vfsStep, hp] at h
  | polled c => simp [vfsStep, hp] at h

/-! ## Reverting twice -/

/-- Two buffers of the same length with the same bytes are equal. -/
theorem buf_ext (a b : Buf) (hl : a.length = b.length) (h : ∀ j, rd a j = rd b j) : a = b := by
  apply List.ext_getElem hl
  intro n h1 h2
  have e := h n
  unfold rd at e
  rw [List.getD_eq_getElem _ _ h1, List.getD_eq_getElem _ _ h2] at e
  exact e

theorem rd_of_length_le (a : Buf) (j : Nat) (h : a.length ≤ j) : rd a j = 0 := by
  unfold rd
  exact List.getD_eq_default _ _ h

theorem rd_wr_congr (a b : Buf) (i j : Nat) (v : Byte) (hl : a.length = b.length)
    (h : i = j ∨ rd a j = rd b j) : rd (wr a i v) j = rd (wr b i v) j := by
  rw [rd_wr, rd_wr, hl]
  by_cases hc : i = j ∧ j < b.length
  · rw [if_pos hc, if_pos hc]
  · rw [if_neg hc, if_neg hc]
    rcases h with h | h
    · have hj : b.length ≤ j := by
        by_contra hlt
        exact hc ⟨h, by omega⟩
      rw [rd_of_length_le a j (by omega), rd_of_length_le b j hj]
    · exact h

/-- A word store makes two buffers of the same length agree on the four bytes it
writes and keeps their agreement elsewhere. -/
theorem rd_store32_congr (host : ByteOrder) (a b : Buf) (off v j : Nat)
    (hl : a.length = b.length) (h : (off ≤ j ∧ j < off + 4) ∨ rd a j = rd b j) :
    rd (store32 host a off v) j = rd (store32 host b off v) j := by
  cases host <;> simp only [store32]
  · apply rd_wr_congr _ _ _ _ _ (by simp [hl])
    by_cases h3 : off + 3 = j
    · exact Or.inl h3
    · refine Or.inr (rd_wr_congr _ _ _ _ _ (by simp [hl]) ?_)
      by_cases h2 : off + 2 = j
      · exact Or.inl h2
      · refine Or.inr (rd_wr_congr _ _ _ _ _ (by simp [hl]) ?_)
        by_cases h1 : off + 1 = j
        · exact Or.inl h1
        · refine Or.inr (rd_wr_congr _ _ _ _ _ hl ?_)
          rcases h with h | h
          · exact Or.inl (by omega)
          · exact Or.inr h
  · apply rd_wr_congr _ _ _ _ _ (by simp [hl])
    by_cases h3 : off + 3 = j
    · exact Or.inl h3
    · refine Or.inr (rd_wr_congr _ _ _ _ _ (by simp [hl]) ?_)
      by_cases h2 : off + 2 = j
      · exact Or.inl h2
      · refine Or.inr (rd_wr_congr _ _ _ _ _ (by simp [hl]) ?_)
        by_cases h1 : off + 1 = j
        · exact Or.inl h1
        · refine Or.inr (rd_wr_congr _ _ _ _ _ hl ?_)
          rcases h with h | h
          · exact Or.inl (by omega)
          · exact Or.inr h

/-- The four field stores of the revert make two headers of the same length agree on
bytes 16..31 and keep their agreement elsewhere. -/
theorem rd_revertFields_congr (host : ByteOrder) (h h' : Buf) (a b c d j : Nat)
    (hl : h.length = h'.length) (hj : (16 ≤ j ∧ j < 32) ∨ rd h j = rd h' j) :
    rd (revertFields host h a b c d) j = rd (revertFields host h' a b c d) j := by
  simp only [revertFields]
  apply rd_store32_congr _ _ _ _ _ _ (by simp [hl])
  by_cases w4 : 28 ≤ j ∧ j < 28 + 4
  · exact Or.inl w4
  · refine Or.inr (rd_store32_congr _ _ _ _ _ _ (by simp [hl]) ?_)
    by_cases w3 : 24 ≤ j ∧ j < 24 + 4
    · exact Or.inl w3
    · refine Or.inr (rd_store32_congr _ _ _ _ _ _ (by simp [hl]) ?_)
      by_cases w2 : 20 ≤ j ∧ j < 20 + 4
      · exact Or.inl w2
      · refine Or.inr (rd_store32_congr _ _ _ _ _ _ hl ?_)
        rcases hj with hj | hj
        · exact Or.inl (by omega)
        · exact Or.inr hj

theorem formatWalIndexHeaderRevert_result (host : ByteOrder) (header : Buf) (a b c d : Nat) :
    formatWalIndexHeaderRevert host header a b c d = .ok (revertResult host header a b c d) :=
  formatWalIndexHeaderRevert_eq host header a b c d

@[simp] theorem length_revertResult (host : ByteOrder) (header : Buf) (a b c d : Nat) :
    (revertResult host header a b c d).length = header.length := by
  simp [revertResult]

/-- The revert leaves bytes 0..15, 32..39 and 96 onward as they were. -/
theorem rd_revertResult_keep (host : ByteOrder) (header : Buf) (a b c d j : Nat)
    (hlen : 96 ≤ header.length) (hj : j < 16 ∨ (32 ≤ j ∧ j < 40) ∨ 96 ≤ j) :
    rd (revertResult host header a b c d) j = rd header j := by
  unfold revertResult
  rw [rd_revert_result _ _ _ _ _ _ _ hlen, if_neg (by omega),
    rd_revertPrimary_other _ _ _ _ _ _ _ (by omega),
    rd_revertFields_other _ _ _ _ _ _ _ (by omega)]

/-- Reverting with `y` and then with `x` gives the buffer that reverting with `x`
alone gives. -/
theorem revertResult_revertResult (host : ByteOrder) (header : Buf)
    (x1 x2 x3 x4 y1 y2 y3 y4 : Nat) (hlen : 96 ≤ header.length) :
    revertResult host (revertResult host header y1 y2 y3 y4) x1 x2 x3 x4 =
      revertResult host header x1 x2 x3 x4 := by
  have hl : (revertResult host header y1 y2 y3 y4).length = header.length := by simp
  have hflag : rd (revertResult host header y1 y2 y3 y4) 13 = rd header 13 :=
    rd_revertResult_keep host header _ _ _ _ 13 hlen (by omega)
  have hF : ∀ j, j < 40 ∨ 96 ≤ j →
      rd (revertFields host (revertResult host header y1 y2 y3 y4) x1 x2 x3 x4) j =
        rd (revertFields host header x1 x2 x3 x4) j := by
    intro j hj
    apply rd_revertFields_congr _ _ _ _ _ _ _ _ hl
    by_cases hw : 16 ≤ j ∧ j < 32
    · exact Or.inl hw
    · exact Or.inr (rd_revertResult_keep host header _ _ _ _ j hlen (by omega))
  have hcs : runningSums
        (wordReader host (decide ((rd (revertResult host header y1 y2 y3 y4) 13).val = 0)))
        (revertFields host (revertResult host header y1 y2 y3 y4) x1 x2 x3 x4) 5 0 (0, 0) =
      runningSums (wordReader host (decide ((rd header 13).val = 0)))
        (revertFields host header x1 x2 x3 x4) 5 0 (0, 0) := by
    rw [hflag]
    exact runningSums_congr host _ _ _ 5 0 0 _ (fun i hi => by
      simp only [Nat.zero_add]
      exact hF i (by omega))
  have hP : ∀ j, j < 48 ∨ 96 ≤ j →
      rd (revertPrimary host (revertResult host header y1 y2 y3 y4) x1 x2 x3 x4) j =
        rd (revertPrimary host header x1 x2 x3 x4) j := by
    intro j hj
    unfold revertPrimary
    rw [hcs]
    apply rd_store32_congr _ _ _ _ _ _ (by simp)
    by_cases w2 : 44 ≤ j ∧ j < 44 + 4
    · exact Or.inl w2
    · refine Or.inr (rd_store32_congr _ _ _ _ _ _ (by simp) ?_)
      by_cases w1 : 40 ≤ j ∧ j < 40 + 4
      · exact Or.inl w1
      · exact Or.inr (hF j (by omega))
  apply buf_ext _ _ (by simp)
  intro j
  unfold revertResult
  rw [rd_revert_result _ _ _ _ _ _ _ (by simpa using hlen),
    rd_revert_result _ _ _ _ _ _ _ hlen]
  by_cases hc : 48 ≤ j ∧ j < 96
  · rw [if_pos hc, if_pos hc]
    exact hP (j - 48) (by omega)
  · rw [if_neg hc, if_neg hc]
    exact hP j (by omega)

/-! ## Decoded page sizes -/

/-- A non-zero result of `formatDecodePageSize` is 65536 or a power of two between 512
and 32768. -/
theorem formatDecodePageSize_nonzero (buf : Buf) (h : formatDecodePageSize buf ≠ 0) :
    formatDecodePageSize buf = 65536 ∨
      ((∃ k, formatDecodePageSize buf = 2 ^ k) ∧ 512 ≤ formatDecodePageSize buf ∧
        formatDecodePageSize buf ≤ 32768) := by
  obtain ⟨s1, s2, s3⟩ := formatDecodePageSize_spec buf
  by_cases h1 : beWord buf 0 = 1
  · exact Or.inl (s1 h1)
  · by_cases hp : (∃ k, beWord buf 0 = 2 ^ k) ∧ 512 ≤ beWord buf 0 ∧ beWord buf 0 ≤ 32768
    · have e := s2 hp.1 hp.2.1 hp.2.2
      rw [e]
      exact Or.inr hp
    · exact absurd (s3 h1 hp) h

/-- A power of two that is at least 512 is a multiple of 8. -/
theorem pow_two_mod_eight (v k : Nat) (hv : v = 2 ^ k) (h : 512 ≤ v) : v % 8 = 0 := by
  have hk : 3 ≤ k := by
    by_contra hlt
    have hle : 2 ^ k ≤ 2 ^ 2 := Nat.pow_le_pow_right (by omega) (by omega)
    omega
  have hd : 2 ^ 3 ∣ 2 ^ k := Nat.pow_dvd_pow 2 hk
  rw [hv]
  exact Nat.mod_eq_zero_of_dvd hd

/-- A non-zero decoded page size is a multiple of 8 between 8 and 65536. -/
theorem formatDecodePageSize_safe (buf : Buf) (h : formatDecodePageSize buf ≠ 0) :
    formatDecodePageSize buf % 8 = 0 ∧ 8 ≤ formatDecodePageSize buf ∧
      formatDecodePageSize buf ≤ 65536 := by
  rcases formatDecodePageSize_nonzero buf h with e | ⟨⟨k, hk⟩, hlo, hhi⟩
  · rw [e]; exact ⟨by decide, by decide, by decide⟩
  · exact ⟨pow_two_mod_eight _ k hk hlo, by omega, by omega⟩

/-! ## The assertions of the checksum -/

/-- The three assertions of `formatWalChecksumBytes` decide whether it returns. -/
theorem formatWalChecksumBytes_accepts (host : ByteOrder) (native : Bool) (data : Buf) (n : Nat)
    (in_ : Option (Nat × Nat)) :
    (0 < n ∧ n % 8 = 0 ∧ n ≤ 65536 →
      ∃ r, formatWalChecksumBytes host native data n in_ = .ok r) ∧
    (¬ (0 < n ∧ n % 8 = 0 ∧ n ≤ 65536) →
      formatWalChecksumBytes host native data n in_ = .assertionFailure) := by
  have hnone : formatWalChecksumBytes host native data n none =
      formatWalChecksumBytes host native data n (some (0, 0)) := rfl
  have hmod : n &&& 0x00000007 = n % 8 := Nat.and_pow_two_sub_one_eq_mod n 3
  constructor
  · rintro ⟨h0, h8, hmax⟩
    obtain ⟨k, rfl⟩ : ∃ k, n = 8 * k := ⟨n / 8, by omega⟩
    cases in_ with
    | none =>
      rw [hnone]
      exact ⟨_, formatWalChecksumBytes_eq host native data k (0, 0) (by omega) hmax⟩
    | some s => exact ⟨_, formatWalChecksumBytes_eq host native data k s (by omega) hmax⟩
  · intro hnot
    unfold formatWalChecksumBytes
    simp only [hmod]
    by_cases h1 : n ≥ 8
    · rw [if_neg (by simpa using h1)]
      by_cases h2 : n % 8 = 0
      · rw [if_neg (by simpa using h2)]
        have h3 : ¬ (n ≤ 65536) := fun h3 => hnot ⟨by omega, h2, h3⟩
        rw [if_pos h3]
      · rw [if_pos h2]
    · rw [if_pos h1]

/-! ## Claims -/

/-- C1 (checksum chaining): for every host, native flag, seed pair and byte buffers
`A`, `B` whose lengths are positive multiples of 8 with `|A| + |B| ≤ 65536`,
`formatWalChecksumBytes` over `A ++ B` from the seed returns a result, and it is the
result of `formatWalChecksumBytes` over `B` seeded with the result over `A` from the
seed (all sums modulo `2^32`). -/
theorem checksum_chaining (host : ByteOrder) (native : Bool) (seed : Nat × Nat) (A B : Buf)
    (hA0 : 0 < A.length) (hA8 : A.length % 8 = 0)
    (hB0 : 0 < B.length) (hB8 : B.length % 8 = 0)
    (hlen : A.length + B.length ≤ 65536) :
    ∃ rA rAB : Nat × Nat,
      formatWalChecksumBytes host native A A.length (some seed) = .ok rA ∧
      formatWalChecksumBytes host native B B.length (some rA) = .ok rAB ∧
      formatWalChecksumBytes host native (A ++ B) (A ++ B).length (some seed) = .ok rAB := by
  obtain ⟨a, ha⟩ : ∃ a, A.length = 8 * a := ⟨A.length / 8, by omega⟩
  obtain ⟨b, hb⟩ : ∃ b, B.length = 8 * b := ⟨B.length / 8, by omega⟩
  refine ⟨runningSums (wordReader host native) A a 0 seed,
    runningSums (wordReader host native) B b 0
      (runningSums (wordReader host native) A a 0 seed), ?_, ?_, ?_⟩
  · rw [ha]; exact formatWalChecksumBytes_eq host native A a seed (by omega) (by omega)
  · rw [hb]; exact formatWalChecksumBytes_eq host native B b _ (by omega) (by omega)
  · rw [List.length_append, ha, hb, ← Nat.mul_add,
      formatWalChecksumBytes_eq host native (A ++ B) (a + b) seed (by omega) (by omega),
      runningSums_add]
    congr 1
    rw [runningSums_congr host native (A ++ B) A a 0 0 seed
        (fun i hi => by
          simp only [Nat.zero_add]
          exact rd_append_left A B i (by omega)),
      runningSums_congr host native (A ++ B) B b (0 + 8 * a) 0 _
        (fun i hi => by
          simp only [Nat.zero_add]
          rw [← ha]
          exact rd_append_right A B i)]

/-- Witness for C1: two 8-byte buffers on a little-endian host. -/
theorem checksum_chaining_witness :
    ∃ rA rAB : Nat × Nat,
      formatWalChecksumBytes .little true [1, 2, 3, 4, 5, 6, 7, 8]
        ([1, 2, 3, 4, 5, 6, 7, 8] : Buf).length (some (9, 10)) = .ok rA ∧
      formatWalChecksumBytes .little true [11, 12, 13, 14, 15, 16, 17, 18]
        ([11, 12, 13, 14, 15, 16, 17, 18] : Buf).length (some rA) = .ok rAB ∧
      formatWalChecksumBytes .little true
        ([1, 2, 3, 4, 5, 6, 7, 8] ++ [11, 12, 13, 14, 15, 16, 17, 18])
        (([1, 2, 3, 4, 5, 6, 7, 8] : Buf) ++ [11, 12, 13, 14, 15, 16, 17, 18]).length
        (some (9, 10)) = .ok rAB :=
  checksum_chaining .little true (9, 10) [1, 2, 3, 4, 5, 6, 7, 8] [11, 12, 13, 14, 15, 16, 17, 18]
    (by decide) (by decide) (by decide) (by decide) (by decide)

/-- C2 (frame checksum round trip): for every host, native flag, page number, database
size, salts, prior checksum pair, 24-byte (or longer) header buffer and page of
`page_size` bytes, with `page_size` a positive multiple of 8 and at most 65536,
`formatWalPutFrameHeader` returns, and `formatWalGetFrameChecksums` on the header it
wrote yields exactly the checksum pair it returned. -/
theorem frame_checksum_round_trip (host : ByteOrder) (native : Bool)
    (page_number database_size salt1 salt2 checksum1 checksum2 : Nat) (header page : Buf)
    (page_size : Nat) (hheader : 24 ≤ header.length) (hpage : page.length = page_size)
    (h0 : 0 < page_size) (h8 : page_size % 8 = 0) (hmax : page_size ≤ 65536) :
    ∃ (cs : Nat × Nat) (header' : Buf),
      formatWalPutFrameHeader host native page_number database_size salt1 salt2 checksum1
        checksum2 header page page_size = .ok (cs, header') ∧
      formatWalGetFrameChecksums header' = cs := by
  obtain ⟨k, rfl⟩ : ∃ k, page_size = 8 * k := ⟨page_size / 8, by omega⟩
  refine ⟨_, _, formatWalPutFrameHeader_eq host native page_number database_size salt1 salt2
    checksum1 checksum2 header page k (by omega) hmax, ?_⟩
  generalize runningSums (wordReader host native)
      (formatPut32 database_size (formatPut32 page_number header 0) 4) 1 0
      (checksum1, checksum2) = s1
  have hlt := runningSums_pos_lt (wordReader host native) page k 0 s1 (by omega)
  generalize runningSums (wordReader host native) page k 0 s1 = cs at hlt ⊢
  generalize hX : store32 host
      (store32 host (formatPut32 database_size (formatPut32 page_number header 0) 4) 8 salt1)
      12 salt2 = X
  have hXlen : X.length = header.length := by rw [← hX]; simp
  simp only [formatWalGetFrameChecksums, formatGet32_eq_beWord]
  have a1 : beWord (formatPut32 cs.2 (formatPut32 cs.1 X 16) 20) 16 = cs.1 := by
    rw [beWord_congr _ (formatPut32 cs.1 X 16) 16 16
        (fun i hi => rd_formatPut32_other _ _ _ _ (Or.inl (by omega))),
      beWord_formatPut32 _ _ _ (by omega)]
    exact Nat.mod_eq_of_lt hlt.1
  have a2 : beWord (formatPut32 cs.2 (formatPut32 cs.1 X 16) 20) 20 = cs.2 := by
    rw [beWord_formatPut32 _ _ _ (by simp; omega)]
    exact Nat.mod_eq_of_lt hlt.2
  rw [a1, a2]

/-- Witness for C2: an 8-byte page on a big-endian host, non-native checksum. -/
theorem frame_checksum_round_trip_witness :
    ∃ (cs : Nat × Nat) (header' : Buf),
      formatWalPutFrameHeader .big false 1 2 3 4 5 6 (List.replicate 24 0)
        [1, 2, 3, 4, 5, 6, 7, 8] 8 = .ok (cs, header') ∧
      formatWalGetFrameChecksums header' = cs :=
  frame_checksum_round_trip .big false 1 2 3 4 5 6 (List.replicate 24 0)
    [1, 2, 3, 4, 5, 6, 7, 8] 8 (by decide) (by decide) (by decide) (by decide) (by decide)

/-- C3 (what the frame checksum covers): for every host, native flag, page number,
database size, salts, prior checksum pair, initial header contents and page of
`page_size` bytes (`page_size` a positive multiple of 8, at most 65536), the pair
returned by `formatWalPutFrameHeader` is the specification's checksum, seeded with the
prior pair, of `be32 page_number ++ be32 database_size ++ page`; it is also what
`formatWalChecksumBytes` returns over the page when seeded with its result over those
8 bytes; and any other salts and any other initial header contents give the same
pair. -/
theorem frame_checksum_covers (host : ByteOrder) (native : Bool)
    (page_number database_size salt1 salt2 checksum1 checksum2 : Nat) (header page : Buf)
    (page_size : Nat) (hheader : 24 ≤ header.length) (hpage : page.length = page_size)
    (h0 : 0 < page_size) (h8 : page_size % 8 = 0) (hmax : page_size ≤ 65536) :
    ∃ (cs : Nat × Nat) (header' : Buf),
      formatWalPutFrameHeader host native page_number database_size salt1 salt2 checksum1
        checksum2 header page page_size = .ok (cs, header') ∧
      cs = checksum host native (be32 page_number ++ be32 database_size ++ page)
        (8 + page_size) (checksum1, checksum2) ∧
      (∃ c8 : Nat × Nat,
        formatWalChecksumBytes host native (be32 page_number ++ be32 database_size) 8
          (some (checksum1, checksum2)) = .ok c8 ∧
        formatWalChecksumBytes host native page page_size (some c8) = .ok cs) ∧
      ∀ (salt1' salt2' : Nat) (other : Buf), 24 ≤ other.length →
        ∃ header'' : Buf,
          formatWalPutFrameHeader host native page_number database_size salt1' salt2'
            checksum1 checksum2 other page page_size = .ok (cs, header'') := by
  obtain ⟨k, rfl⟩ : ∃ k, page_size = 8 * k := ⟨page_size / 8, by omega⟩
  have hk : 1 ≤ k := by omega
  have pre : ∀ (hd : Buf), 24 ≤ hd.length →
      runningSums (wordReader host native)
        (formatPut32 database_size (formatPut32 page_number hd 0) 4) 1 0
        (checksum1, checksum2) =
      runningSums (wordReader host native) (be32 page_number ++ be32 database_size) 1 0
        (checksum1, checksum2) := fun hd hhd =>
    runningSums_congr host native _ _ 1 0 0 _ (fun i hi => by
      simp only [Nat.zero_add]
      exact rd_frame_first8 page_number database_size hd (by omega) i (by omega))
  refine ⟨_, _, formatWalPutFrameHeader_eq host native page_number database_size salt1 salt2
    checksum1 checksum2 header page k hk hmax, ?_, ?_, ?_⟩
  · rw [pre header hheader]
    have hdiv : (8 + 8 * k) / 8 = 1 + k := by omega
    rw [checksum, hdiv, runningSums_add]
    rw [runningSums_congr host native (be32 page_number ++ be32 database_size ++ page)
        (be32 page_number ++ be32 database_size) 1 0 0 _
        (fun i hi => by
          simp only [Nat.zero_add]
          exact rd_append_left _ page i (by simp [be32]; omega))]
    exact runningSums_congr host native page _ k 0 (0 + 8 * 1) _
      (fun i hi => by
        have := rd_append_right (be32 page_number ++ be32 database_size) page i
        simp only [Nat.zero_add]
        simpa [be32] using this.symm)
  · refine ⟨_, formatWalChecksumBytes_eq host native _ 1 _ (by omega) (by omega), ?_⟩
    rw [formatWalChecksumBytes_eq host native page k _ hk hmax, pre header hheader]
  · intro salt1' salt2' other hother
    have e := formatWalPutFrameHeader_eq host native page_number database_size salt1' salt2'
      checksum1 checksum2 other page k hk hmax
    rw [pre other hother] at e
    rw [pre header hheader]
    exact ⟨_, e⟩

/-- Witness for C3: an 8-byte page on a little-endian host, native checksum. -/
theorem frame_checksum_covers_witness :
    ∃ (cs : Nat × Nat) (header' : Buf),
      formatWalPutFrameHeader .little true 1 2 3 4 5 6 (List.replicate 24 7)
        [1, 1, 1, 1, 1, 1, 1, 1] 8 = .ok (cs, header') ∧
      cs = checksum .little true (be32 1 ++ be32 2 ++ [1, 1, 1, 1, 1, 1, 1, 1])
        (8 + 8) (5, 6) ∧
      (∃ c8 : Nat × Nat,
        formatWalChecksumBytes .little true (be32 1 ++ be32 2) 8
          (some (5, 6)) = .ok c8 ∧
        formatWalChecksumBytes .little true [1, 1, 1, 1, 1, 1, 1, 1] 8 (some c8) = .ok cs) ∧
      ∀ (salt1' salt2' : Nat) (other : Buf), 24 ≤ other.length →
        ∃ header'' : Buf,
          formatWalPutFrameHeader .little true 1 2 salt1' salt2'
            5 6 other [1, 1, 1, 1, 1, 1, 1, 1] 8 = .ok (cs, header'') :=
  frame_checksum_covers .little true 1 2 3 4 5 6 (List.replicate 24 7)
    [1, 1, 1, 1, 1, 1, 1, 1] 8 (by decide) (by decide) (by decide) (by decide) (by decide)

/-- C4 (database page size): for every database header of at least 100 bytes, with
`v = 256 * header[16] + header[17]`, `formatDatabaseGetPageSize` yields 65536 if `v = 1`,
yields `v` if `v` is a power of two with `512 ≤ v ≤ 32768`, and yields 0 for every other
`v`; a header that agrees on bytes 16 and 17 gives the same result. -/
theorem database_page_size (header : Buf) (_hlen : 100 ≤ header.length) :
    (256 * (rd header 16).val + (rd header 17).val = 1 →
      formatDatabaseGetPageSize header = 65536) ∧
    ((∃ k, 256 * (rd header 16).val + (rd header 17).val = 2 ^ k) →
      512 ≤ 256 * (rd header 16).val + (rd header 17).val →
      256 * (rd header 16).val + (rd header 17).val ≤ 32768 →
      formatDatabaseGetPageSize header = 256 * (rd header 16).val + (rd header 17).val) ∧
    (256 * (rd header 16).val + (rd header 17).val ≠ 1 →
      ¬ ((∃ k, 256 * (rd header 16).val + (rd header 17).val = 2 ^ k) ∧
          512 ≤ 256 * (rd header 16).val + (rd header 17).val ∧
          256 * (rd header 16).val + (rd header 17).val ≤ 32768) →
      formatDatabaseGetPageSize header = 0) ∧
    (∀ other : Buf, 100 ≤ other.length → rd other 16 = rd header 16 →
      rd other 17 = rd header 17 →
      formatDatabaseGetPageSize other = formatDatabaseGetPageSize header) := by
  have hv : beWord [0, 0, rd header 16, rd header 17] 0 =
      256 * (rd header 16).val + (rd header 17).val := by
    simp [beWord, rd]
    omega
  obtain ⟨s1, s2, s3⟩ := formatDecodePageSize_spec [0, 0, rd header 16, rd header 17]
  rw [hv] at s1 s2 s3
  refine ⟨s1, s2, s3, ?_⟩
  intro other _ h16 h17
  simp only [formatDatabaseGetPageSize, h16, h17]

/-- Witness for C4: a 100-byte header whose bytes 16 and 17 are `0x10 0x00` (4096). -/
theorem database_page_size_witness :
    100 ≤ ((List.replicate 100 0).set 16 16 : Buf).length ∧
    formatDatabaseGetPageSize ((List.replicate 100 0).set 16 16) = 4096 :=
  ⟨by decide,
    by
      have h := (database_page_size ((List.replicate 100 0).set 16 16) (by decide)).2.1
        ⟨12, by decide⟩ (by decide) (by decide)
      exact h⟩

/-- C5 (WAL page size): for every WAL header of at least 32 bytes, with `v` the
big-endian 32-bit value of bytes 8..11, `formatWalGetPageSize` yields 65536 if `v = 1`,
yields `v` if `v` is a power of two with `512 ≤ v ≤ 32768`, and yields 0 for every other
32-bit `v`, in particular for `v = 0` and for every `v ≥ 65536` (any of the two high
bytes set). -/
theorem wal_page_size (header : Buf) (_hlen : 32 ≤ header.length) :
    (beWord header 8 = 1 → formatWalGetPageSize header = 65536) ∧
    ((∃ k, beWord header 8 = 2 ^ k) → 512 ≤ beWord header 8 → beWord header 8 ≤ 32768 →
      formatWalGetPageSize header = beWord header 8) ∧
    (beWord header 8 ≠ 1 →
      ¬ ((∃ k, beWord header 8 = 2 ^ k) ∧ 512 ≤ beWord header 8 ∧ beWord header 8 ≤ 32768) →
      formatWalGetPageSize header = 0) ∧
    (beWord header 8 = 0 ∨ 65536 ≤ beWord header 8 → formatWalGetPageSize header = 0) := by
  have hv : beWord [rd header 8, rd header 9, rd header 10, rd header 11] 0 =
      beWord header 8 := by
    simp [beWord, rd]
  obtain ⟨s1, s2, s3⟩ :=
    formatDecodePageSize_spec [rd header 8, rd header 9, rd header 10, rd header 11]
  rw [hv] at s1 s2 s3
  refine ⟨s1, s2, s3, ?_⟩
  intro h
  exact s3 (by omega) (by rintro ⟨_, h1, h2⟩; omega)

/-- Witness for C5: a 32-byte WAL header whose bytes 8..11 are `00 01 00 00` (65536),
which is rejected. -/
theorem wal_page_size_witness :
    32 ≤ ((List.replicate 32 0).set 9 1 : Buf).length ∧
    formatWalGetPageSize ((List.replicate 32 0).set 9 1) = 0 :=
  ⟨by decide,
    (wal_page_size ((List.replicate 32 0).set 9 1) (by decide)).2.2.2 (Or.inr (by decide))⟩

/-- C6 (both copies agree after a revert): for every host, every header buffer of at
least 96 bytes and every `max_frame`, `n_pages`, `frame_checksum1`, `frame_checksum2`,
`formatWalIndexHeaderRevert` returns and bytes 48..95 of the resulting header are
byte-for-byte identical to its bytes 0..47. -/
theorem revert_copies_agree (host : ByteOrder) (header : Buf)
    (max_frame n_pages frame_checksum1 frame_checksum2 : Nat) (hlen : 96 ≤ header.length) :
    ∃ header' : Buf,
      formatWalIndexHeaderRevert host header max_frame n_pages frame_checksum1
        frame_checksum2 = .ok header' ∧
      header'.length = header.length ∧
      ∀ i, i < 48 → rd header' (48 + i) = rd header' i := by
  refine ⟨_, formatWalIndexHeaderRevert_eq host header max_frame n_pages frame_checksum1
    frame_checksum2, by simp, ?_⟩
  intro i hi
  rw [rd_revert_result _ _ _ _ _ _ _ hlen, rd_revert_result _ _ _ _ _ _ _ hlen,
    if_pos ⟨by omega, by omega⟩, if_neg (by omega)]
  congr 1
  omega

/-- Witness for C6: a 96-byte header of `0x07` bytes on a little-endian host. -/
theorem revert_copies_agree_witness :
    ∃ header' : Buf,
      formatWalIndexHeaderRevert .little (List.replicate 96 7) 1 2 3 4 = .ok header' ∧
      header'.length = (List.replicate 96 7 : Buf).length ∧
      ∀ i, i < 48 → rd header' (48 + i) = rd header' i :=
  revert_copies_agree .little (List.replicate 96 7) 1 2 3 4 (by decide)

/-- C7 (the reverted fields): for every host, header buffer of at least 96 bytes and
32-bit `max_frame`, `n_pages`, `frame_checksum1`, `frame_checksum2`, after
`formatWalIndexHeaderRevert` the host-order words at byte offsets 16, 20, 24 and 28
hold these four values, so do the words at offsets 64, 68, 72 and 76 of the second
copy, and `formatWalGetMxFrame` on the resulting header returns `max_frame`. -/
theorem revert_fields (host : ByteOrder) (header : Buf)
    (max_frame n_pages frame_checksum1 frame_checksum2 : Nat) (hlen : 96 ≤ header.length)
    (hmf : max_frame < 4294967296) (hnp : n_pages < 4294967296)
    (hc1 : frame_checksum1 < 4294967296) (hc2 : frame_checksum2 < 4294967296) :
    ∃ header' : Buf,
      formatWalIndexHeaderRevert host header max_frame n_pages frame_checksum1
        frame_checksum2 = .ok header' ∧
      (load32 host header' 16 = max_frame ∧ load32 host header' 20 = n_pages ∧
        load32 host header' 24 = frame_checksum1 ∧
        load32 host header' 28 = frame_checksum2) ∧
      (load32 host header' 64 = max_frame ∧ load32 host header' 68 = n_pages ∧
        load32 host header' 72 = frame_checksum1 ∧
        load32 host header' 76 = frame_checksum2) ∧
      formatWalGetMxFrame host header' = max_frame := by
  refine ⟨_, formatWalIndexHeaderRevert_eq host header max_frame n_pages frame_checksum1
    frame_checksum2, ?_⟩
  obtain ⟨f16, f20, f24, f28⟩ := load32_revertFields host header max_frame n_pages
    frame_checksum1 frame_checksum2 (by omega)
  rw [Nat.mod_eq_of_lt hmf] at f16
  rw [Nat.mod_eq_of_lt hnp] at f20
  rw [Nat.mod_eq_of_lt hc1] at f24
  rw [Nat.mod_eq_of_lt hc2] at f28
  have low : ∀ off, 16 ≤ off → off + 4 ≤ 32 →
      load32 host
        (memcpy
          (revertPrimary host header max_frame n_pages frame_checksum1 frame_checksum2) 48
          (revertPrimary host header max_frame n_pages frame_checksum1 frame_checksum2) 0 48)
        off =
      load32 host
        (revertFields host header max_frame n_pages frame_checksum1 frame_checksum2) off := by
    intro off h1 h2
    apply load32_congr
    intro i hi
    rw [rd_revert_result _ _ _ _ _ _ _ hlen, if_neg (by omega),
      rd_revertPrimary_other _ _ _ _ _ _ _ (by omega)]
  have high : ∀ off, 16 ≤ off → off + 4 ≤ 32 →
      load32 host
        (memcpy
          (revertPrimary host header max_frame n_pages frame_checksum1 frame_checksum2) 48
          (revertPrimary host header max_frame n_pages frame_checksum1 frame_checksum2) 0 48)
        (48 + off) =
      load32 host
        (revertFields host header max_frame n_pages frame_checksum1 frame_checksum2) off := by
    intro off h1 h2
    apply load32_congr
    intro i hi
    rw [rd_revert_result _ _ _ _ _ _ _ hlen, if_pos ⟨by omega, by omega⟩,
      rd_revertPrimary_other _ _ _ _ _ _ _ (by omega)]
    congr 1
    omega
  refine ⟨⟨?_, ?_, ?_, ?_⟩, ⟨?_, ?_, ?_, ?_⟩, ?_⟩
  · rw [low 16 (by omega) (by omega), f16]
  · rw [low 20 (by omega) (by omega), f20]
  · rw [low 24 (by omega) (by omega), f24]
  · rw [low 28 (by omega) (by omega), f28]
  · rw [high 16 (by omega) (by omega), f16]
  · rw [high 20 (by omega) (by omega), f20]
  · rw [high 24 (by omega) (by omega), f24]
  · rw [high 28 (by omega) (by omega), f28]
  · rw [formatWalGetMxFrame, low (4 * 4) (by omega) (by omega)]
    exact f16

/-- Witness for C7: a 96-byte zeroed header on a big-endian host. -/
theorem revert_fields_witness :
    ∃ header' : Buf,
      formatWalIndexHeaderRevert .big (List.replicate 96 0) 10 20 30 40 = .ok header' ∧
      (load32 .big header' 16 = 10 ∧ load32 .big header' 20 = 20 ∧
        load32 .big header' 24 = 30 ∧ load32 .big header' 28 = 40) ∧
      (load32 .big header' 64 = 10 ∧ load32 .big header' 68 = 20 ∧
        load32 .big header' 72 = 30 ∧ load32 .big header' 76 = 40) ∧
      formatWalGetMxFrame .big header' = 10 :=
  revert_fields .big (List.replicate 96 0) 10 20 30 40 (by decide) (by decide) (by decide)
    (by decide) (by decide)

/-- C8 (the reverted header is self-consistent): for every host, header buffer of at
least 96 bytes and arguments, after `formatWalIndexHeaderRevert` byte 13 of the header
is unchanged, and the two host-order words stored at bytes 40..43 and 44..47 are the
pair that `formatWalChecksumBytes` returns from seed `(0, 0)` over the first 40 bytes of
the resulting header, in the byte order `!header[13]` the function selected. -/
theorem revert_self_checksum (host : ByteOrder) (header : Buf)
    (max_frame n_pages frame_checksum1 frame_checksum2 : Nat) (hlen : 96 ≤ header.length) :
    ∃ header' : Buf,
      formatWalIndexHeaderRevert host header max_frame n_pages frame_checksum1
        frame_checksum2 = .ok header' ∧
      rd header' 13 = rd header 13 ∧
      formatWalChecksumBytes host (decide ((rd header 13).val = 0)) header' 40
        (some (0, 0)) = .ok (load32 host header' 40, load32 host header' 44) := by
  refine ⟨_, formatWalIndexHeaderRevert_eq host header max_frame n_pages frame_checksum1
    frame_checksum2, ?_, ?_⟩
  · rw [rd_revert_result _ _ _ _ _ _ _ hlen, if_neg (by omega),
      rd_revertPrimary_other _ _ _ _ _ _ _ (by omega),
      rd_revertFields_other _ _ _ _ _ _ _ (by omega)]
  · have e := formatWalChecksumBytes_eq host (decide ((rd header 13).val = 0))
      (memcpy
        (revertPrimary host header max_frame n_pages frame_checksum1 frame_checksum2) 48
        (revertPrimary host header max_frame n_pages frame_checksum1 frame_checksum2) 0 48)
      5 (0, 0) (by omega) (by omega)
    simp only [Nat.reduceMul] at e
    rw [e]
    have hsum : runningSums (wordReader host (decide ((rd header 13).val = 0)))
        (memcpy
          (revertPrimary host header max_frame n_pages frame_checksum1 frame_checksum2) 48
          (revertPrimary host header max_frame n_pages frame_checksum1 frame_checksum2) 0 48)
        5 0 (0, 0) =
        runningSums (wordReader host (decide ((rd header 13).val = 0)))
          (revertFields host header max_frame n_pages frame_checksum1 frame_checksum2)
          5 0 (0, 0) :=
      runningSums_congr host _ _ _ 5 0 0 _ (fun i hi => by
        rw [rd_revert_result _ _ _ _ _ _ _ hlen, if_neg (by omega),
          rd_revertPrimary_other _ _ _ _ _ _ _ (by omega)])
    have hlt := runningSums_pos_lt (wordReader host (decide ((rd header 13).val = 0)))
      (revertFields host header max_frame n_pages frame_checksum1 frame_checksum2) 5 0 (0, 0)
      (by omega)
    have w40 : load32 host
        (memcpy
          (revertPrimary host header max_frame n_pages frame_checksum1 frame_checksum2) 48
          (revertPrimary host header max_frame n_pages frame_checksum1 frame_checksum2) 0 48)
        40 =
        (runningSums (wordReader host (decide ((rd header 13).val = 0)))
          (revertFields host header max_frame n_pages frame_checksum1 frame_checksum2)
          5 0 (0, 0)).1 := by
      rw [load32_congr host _
          (revertPrimary host header max_frame n_pages frame_checksum1 frame_checksum2) 40 40
          (fun i hi => by rw [rd_revert_result _ _ _ _ _ _ _ hlen, if_neg (by omega)])]
      unfold revertPrimary
      rw [load32_congr host _ (store32 host
          (revertFields host header max_frame n_pages frame_checksum1 frame_checksum2) 40
          (runningSums (wordReader host (decide ((rd header 13).val = 0)))
            (revertFields host header max_frame n_pages frame_checksum1 frame_checksum2)
            5 0 (0, 0)).1) 40 40
          (fun i hi => by rw [rd_store32_other _ _ _ _ _ (by omega)]),
        load32_store32 _ _ _ _ (by simp; omega)]
      exact Nat.mod_eq_of_lt hlt.1
    have w44 : load32 host
        (memcpy
          (revertPrimary host header max_frame n_pages frame_checksum1 frame_checksum2) 48
          (revertPrimary host header max_frame n_pages frame_checksum1 frame_checksum2) 0 48)
        44 =
        (runningSums (wordReader host (decide ((rd header 13).val = 0)))
          (revertFields host header max_frame n_pages frame_checksum1 frame_checksum2)
          5 0 (0, 0)).2 := by
      rw [load32_congr host _
          (revertPrimary host header max_frame n_pages frame_checksum1 frame_checksum2) 44 44
          (fun i hi => by rw [rd_revert_result _ _ _ _ _ _ _ hlen, if_neg (by omega)])]
      unfold revertPrimary
      rw [load32_store32 _ _ _ _ (by simp; omega)]
      exact Nat.mod_eq_of_lt hlt.2
    rw [hsum, w40, w44]

/-- Witness for C8: a 96-byte header of `0x07` bytes (byte 13 non-zero, so the
non-native order is selected) on a little-endian host. -/
theorem revert_self_checksum_witness :
    ∃ header' : Buf,
      formatWalIndexHeaderRevert .little (List.replicate 96 7) 1 2 3 4 = .ok header' ∧
      rd header' 13 = rd (List.replicate 96 7) 13 ∧
      formatWalChecksumBytes .little (decide ((rd (List.replicate 96 7) 13).val = 0)) header'
        40 (some (0, 0)) = .ok (load32 .little header' 40, load32 .little header' 44) :=
  revert_self_checksum .little (List.replicate 96 7) 1 2 3 4 (by decide)

/-- C9 (byte order of the checksum words): for every seed and every buffer whose length
is a positive multiple of 8 and at most 65536, `formatWalChecksumBytes` with
`native = false` returns, on every host, the running sums `s1 += w0 + s2; s2 += w1 + s1`
over the buffer's consecutive 4-byte words read as big-endian integers, so the result is
the same on a little-endian and on a big-endian host; with `native = true` it returns
the running sums over the words read in host byte order (little-endian words on a
little-endian host, big-endian words on a big-endian host). -/
theorem checksum_byte_order (data : Buf) (seed : Nat × Nat) (h0 : 0 < data.length)
    (h8 : data.length % 8 = 0) (hmax : data.length ≤ 65536) :
    (∀ host : ByteOrder,
      formatWalChecksumBytes host false data data.length (some seed) =
        .ok (runningSums beWord data (data.length / 8) 0 seed)) ∧
    formatWalChecksumBytes .little false data data.length (some seed) =
      formatWalChecksumBytes .big false data data.length (some seed) ∧
    formatWalChecksumBytes .little true data data.length (some seed) =
      .ok (runningSums leWord data (data.length / 8) 0 seed) ∧
    formatWalChecksumBytes .big true data data.length (some seed) =
      .ok (runningSums beWord data (data.length / 8) 0 seed) := by
  obtain ⟨k, hk⟩ : ∃ k, data.length = 8 * k := ⟨data.length / 8, by omega⟩
  have hdiv : 8 * k / 8 = k := by omega
  have e := fun host native =>
    formatWalChecksumBytes_eq host native data k seed (by omega) (by omega)
  rw [hk, hdiv]
  refine ⟨fun host => e host false, ?_, e .little true, e .big true⟩
  rw [e .little false, e .big false]
  rfl

/-- Witness for C9: a 16-byte buffer. -/
theorem checksum_byte_order_witness :
    formatWalChecksumBytes .little false
        [1, 2, 3, 4, 5, 6, 7, 8, 9, 10, 11, 12, 13, 14, 15, 16]
        ([1, 2, 3, 4, 5, 6, 7, 8, 9, 10, 11, 12, 13, 14, 15, 16] : Buf).length
        (some (3, 4)) =
      formatWalChecksumBytes .big false
        [1, 2, 3, 4, 5, 6, 7, 8, 9, 10, 11, 12, 13, 14, 15, 16]
        ([1, 2, 3, 4, 5, 6, 7, 8, 9, 10, 11, 12, 13, 14, 15, 16] : Buf).length
        (some (3, 4)) :=
  (checksum_byte_order [1, 2, 3, 4, 5, 6, 7, 8, 9, 10, 11, 12, 13, 14, 15, 16] (3, 4)
    (by decide) (by decide) (by decide)).2.1

/-- C10 (the WAL magic selects the checksum byte order): for every WAL header of at
least 32 bytes, with `magic` the big-endian 32-bit value of bytes 0..3,
`formatWalGetNativeChecksum` produces a result if and only if `magic` with its least
significant bit cleared equals `0x377f0682`, and fails its assertion otherwise; a
result is `true` exactly when the least significant bit of `magic` is clear
(`magic = 0x377f0682`) and `false` when it is set (`magic = 0x377f0683`). -/
theorem native_checksum_flag (header : Buf) (_hlen : 32 ≤ header.length) :
    ((∃ native : Bool, formatWalGetNativeChecksum header = .ok native) ↔
      beWord header 0 - beWord header 0 % 2 = 0x377f0682) ∧
    (beWord header 0 - beWord header 0 % 2 ≠ 0x377f0682 →
      formatWalGetNativeChecksum header = .assertionFailure) ∧
    (∀ native : Bool, formatWalGetNativeChecksum header = .ok native →
      (native = true ↔ beWord header 0 % 2 = 0)) ∧
    (beWord header 0 = 0x377f0682 → formatWalGetNativeChecksum header = .ok true) ∧
    (beWord header 0 = 0x377f0683 → formatWalGetNativeChecksum header = .ok false) := by
  rw [formatWalGetNativeChecksum_eq]
  refine ⟨?_, ?_, ?_, ?_, ?_⟩
  · constructor
    · rintro ⟨native, hn⟩
      by_contra hne
      rw [if_neg hne] at hn
      exact Outcome.noConfusion hn
    · intro h
      exact ⟨_, if_pos h⟩
  · intro hne
    rw [if_neg hne]
  · intro native hn
    by_cases h : beWord header 0 - beWord header 0 % 2 = 0x377f0682
    · rw [if_pos h] at hn
      injection hn with hn
      rw [← hn]
      simp
    · rw [if_neg h] at hn
      exact Outcome.noConfusion hn
  · intro h
    rw [h]
    rfl
  · intro h
    rw [h]
    rfl

/-- Witness for C10: a 32-byte WAL header starting with the magic `0x377f0683`. -/
theorem native_checksum_flag_witness :
    32 ≤ (([0x37, 0x7f, 0x06, 0x83] : Buf) ++ List.replicate 28 0).length ∧
    formatWalGetNativeChecksum ([0x37, 0x7f, 0x06, 0x83] ++ List.replicate 28 0) =
      .ok false :=
  ⟨by decide,
    (native_checksum_flag ([0x37, 0x7f, 0x06, 0x83] ++ List.replicate 28 0)
      (by decide)).2.2.2.2 (by decide)⟩

/-- C11 (salts are carried verbatim): for every host, every WAL header `w` of at least
32 bytes and every other argument for which `formatWalPutFrameHeader` is defined (a
header buffer of at least 24 bytes, a page of `page_size` bytes, `page_size` a positive
multiple of 8 and at most 65536), passing the pair returned by `formatWalGetSalt` for `w`
to `formatWalPutFrameHeader` produces a frame header whose bytes 8..15 equal bytes
16..23 of `w`, byte for byte. -/
theorem salts_verbatim (host : ByteOrder) (native : Bool)
    (page_number database_size checksum1 checksum2 : Nat) (w header page : Buf)
    (page_size : Nat) (_hw : 32 ≤ w.length) (hheader : 24 ≤ header.length)
    (hpage : page.length = page_size) (h0 : 0 < page_size) (h8 : page_size % 8 = 0)
    (hmax : page_size ≤ 65536) :
    ∃ (cs : Nat × Nat) (header' : Buf),
      formatWalPutFrameHeader host native page_number database_size
        (formatWalGetSalt host w).1 (formatWalGetSalt host w).2 checksum1 checksum2 header
        page page_size = .ok (cs, header') ∧
      ∀ i, i < 8 → rd header' (8 + i) = rd w (16 + i) := by
  obtain ⟨k, rfl⟩ : ∃ k, page_size = 8 * k := ⟨page_size / 8, by omega⟩
  refine ⟨_, _, formatWalPutFrameHeader_eq host native page_number database_size _ _
    checksum1 checksum2 header page k (by omega) hmax, ?_⟩
  intro i hi
  rw [rd_frame_below16 _ _ _ _ _ _ _ (by omega)]
  simp only [formatWalGetSalt]
  by_cases hlow : i < 4
  · rw [rd_store32_other _ _ _ _ _ (Or.inl (by omega))]
    exact rd_store32_load32 host _ w 8 16 i hlow (by simp; omega)
  · obtain ⟨j, rfl⟩ : ∃ j, i = 4 + j := ⟨i - 4, by omega⟩
    have e := rd_store32_load32 host
      (store32 host (formatPut32 database_size (formatPut32 page_number header 0) 4) 8
        (load32 host w 16)) w 12 20 j (by omega) (by simp; omega)
    rw [show 8 + (4 + j) = 12 + j by omega, show 16 + (4 + j) = 20 + j by omega]
    exact e

/-- Witness for C11: a 32-byte WAL header with distinct salt bytes, on a little-endian
host. -/
theorem salts_verbatim_witness :
    ∃ (cs : Nat × Nat) (header' : Buf),
      formatWalPutFrameHeader .little true 1 2
        (formatWalGetSalt .little
          (List.replicate 16 0 ++ [1, 2, 3, 4, 5, 6, 7, 8] ++ List.replicate 8 0)).1
        (formatWalGetSalt .little
          (List.replicate 16 0 ++ [1, 2, 3, 4, 5, 6, 7, 8] ++ List.replicate 8 0)).2
        5 6 (List.replicate 24 0) [1, 1, 1, 1, 1, 1, 1, 1] 8 = .ok (cs, header') ∧
      ∀ i, i < 8 → rd header' (8 + i) =
        rd (List.replicate 16 0 ++ [1, 2, 3, 4, 5, 6, 7, 8] ++ List.replicate 8 0) (16 + i) :=
  salts_verbatim .little true 1 2 5 6
    (List.replicate 16 0 ++ [1, 2, 3, 4, 5, 6, 7, 8] ++ List.replicate 8 0)
    (List.replicate 24 0) [1, 1, 1, 1, 1, 1, 1, 1] 8 (by decide) (by decide) (by decide)
    (by decide) (by decide) (by decide)

/-- C12 (page number and database size are stored big-endian): for every host, native
flag, 32-bit `page_number` and `database_size` and every other argument for which
`formatWalPutFrameHeader` is defined (a header buffer of at least 24 bytes, a page of
`page_size` bytes, `page_size` a positive multiple of 8 and at most 65536), the header
written has the big-endian encoding of `page_number` in bytes 0..3 and that of
`database_size` in bytes 4..7, and `formatWalGetFramePageNumber` on it returns
`page_number`. -/
theorem frame_fields_big_endian (host : ByteOrder) (native : Bool)
    (page_number database_size salt1 salt2 checksum1 checksum2 : Nat) (header page : Buf)
    (page_size : Nat) (hpn : page_number < 4294967296) (_hds : database_size < 4294967296)
    (hheader : 24 ≤ header.length) (hpage : page.length = page_size) (h0 : 0 < page_size)
    (h8 : page_size % 8 = 0) (hmax : page_size ≤ 65536) :
    ∃ (cs : Nat × Nat) (header' : Buf),
      formatWalPutFrameHeader host native page_number database_size salt1 salt2 checksum1
        checksum2 header page page_size = .ok (cs, header') ∧
      (∀ i, i < 4 → rd header' i = rd (be32 page_number) i) ∧
      (∀ i, i < 4 → rd header' (4 + i) = rd (be32 database_size) i) ∧
      formatWalGetFramePageNumber header' = page_number := by
  obtain ⟨k, rfl⟩ : ∃ k, page_size = 8 * k := ⟨page_size / 8, by omega⟩
  refine ⟨_, _, formatWalPutFrameHeader_eq host native page_number database_size salt1 salt2
    checksum1 checksum2 header page k (by omega) hmax, ?_⟩
  have low : ∀ j, j < 8 →
      rd (formatPut32
          (runningSums (wordReader host native) page k 0
            (runningSums (wordReader host native)
              (formatPut32 database_size (formatPut32 page_number header 0) 4) 1 0
              (checksum1, checksum2))).2
          (formatPut32
            (runningSums (wordReader host native) page k 0
              (runningSums (wordReader host native)
                (formatPut32 database_size (formatPut32 page_number header 0) 4) 1 0
                (checksum1, checksum2))).1
            (store32 host
              (store32 host (formatPut32 database_size (formatPut32 page_number header 0) 4)
                8 salt1) 12 salt2) 16) 20) j =
        rd (be32 page_number ++ be32 database_size) j := by
    intro j hj
    rw [rd_frame_below16 _ _ _ _ _ _ _ (by omega),
      rd_store32_other _ _ _ _ _ (Or.inl (by omega)),
      rd_store32_other _ _ _ _ _ (Or.inl (by omega))]
    exact rd_frame_first8 page_number database_size header (by omega) j hj
  refine ⟨?_, ?_, ?_⟩
  · intro i hi
    rw [low i (by omega)]
    exact rd_append_left _ _ i (by simp [be32]; omega)
  · intro i hi
    rw [low (4 + i) (by omega)]
    exact rd_append_right (be32 page_number) (be32 database_size) i
  · rw [formatWalGetFramePageNumber, formatGet32_eq_beWord]
    rw [beWord_congr _ (be32 page_number ++ be32 database_size) 0 0 (fun i hi => by
        simp only [Nat.zero_add]
        exact low i (by omega))]
    simp only [beWord, be32, rd, List.cons_append, List.getD_cons_zero, List.getD_cons_succ,
      u8_val, Nat.zero_add]
    omega

/-- Witness for C12: page number `0x01020304` on a little-endian host. -/
theorem frame_fields_big_endian_witness :
    ∃ (cs : Nat × Nat) (header' : Buf),
      formatWalPutFrameHeader .little true 16909060 7 3 4 5 6 (List.replicate 24 0)
        [1, 1, 1, 1, 1, 1, 1, 1] 8 = .ok (cs, header') ∧
      (∀ i, i < 4 → rd header' i = rd (be32 16909060) i) ∧
      (∀ i, i < 4 → rd header' (4 + i) = rd (be32 7) i) ∧
      formatWalGetFramePageNumber header' = 16909060 :=
  frame_fields_big_endian .little true 16909060 7 3 4 5 6 (List.replicate 24 0)
    [1, 1, 1, 1, 1, 1, 1, 1] 8 (by decide) (by decide) (by decide) (by decide) (by decide)
    (by decide) (by decide)

/-- Counterexample to C13 as stated: on a little-endian host, for the 32-byte WAL
header whose bytes 16..23 are `01 00 00 00 02 00 00 00`, `formatWalGetSalt` returns
`(1, 2)` while the big-endian values of bytes 16..19 and 20..23 are
`(16777216, 33554432)`. -/
theorem salt_read_big_endian_counterexample :
    (List.replicate 16 0 ++ [1, 0, 0, 0, 2, 0, 0, 0] ++ List.replicate 8 0 : Buf).length = 32 ∧
    formatWalGetSalt .little
      (List.replicate 16 0 ++ [1, 0, 0, 0, 2, 0, 0, 0] ++ List.replicate 8 0) = (1, 2) ∧
    (beWord (List.replicate 16 0 ++ [1, 0, 0, 0, 2, 0, 0, 0] ++ List.replicate 8 0) 16,
      beWord (List.replicate 16 0 ++ [1, 0, 0, 0, 2, 0, 0, 0] ++ List.replicate 8 0) 20) =
      (16777216, 33554432) := by
  decide

/-- C13 as amended (the salts are read in host order): for every WAL header of at
least 32 bytes, `formatWalGetSalt` is a fixed-offset host-order read of bytes 16..19 and
20..23: on a big-endian host it returns their big-endian 32-bit values, on a
little-endian host their little-endian 32-bit values. -/
theorem salt_read_host_order (w : Buf) (_hlen : 32 ≤ w.length) :
    formatWalGetSalt .big w = (beWord w 16, beWord w 20) ∧
    formatWalGetSalt .little w = (leWord w 16, leWord w 20) ∧
    ∀ host : ByteOrder, formatWalGetSalt host w = (hostWord host w 16, hostWord host w 20) := by
  refine ⟨?_, ?_, ?_⟩
  · simp only [formatWalGetSalt, load32_eq_hostWord, hostWord]
  · simp only [formatWalGetSalt, load32_eq_hostWord, hostWord]
  · intro host
    simp only [formatWalGetSalt, load32_eq_hostWord]

/-- Witness for amended C13: the header of the counterexample read on a big-endian
host. -/
theorem salt_read_host_order_witness :
    formatWalGetSalt .big
        (List.replicate 16 0 ++ [1, 0, 0, 0, 2, 0, 0, 0] ++ List.replicate 8 0) =
      (beWord (List.replicate 16 0 ++ [1, 0, 0, 0, 2, 0, 0, 0] ++ List.replicate 8 0) 16,
        beWord (List.replicate 16 0 ++ [1, 0, 0, 0, 2, 0, 0, 0] ++ List.replicate 8 0) 20) :=
  (salt_read_host_order
    (List.replicate 16 0 ++ [1, 0, 0, 0, 2, 0, 0, 0] ++ List.replicate 8 0) (by decide)).1

/-- Counterexample to C14 as stated: the length 65544 is a positive multiple of 8 and
at most `65536 + 24`, yet `formatWalChecksumBytes` over a 65544-byte buffer fails its
assertion `n <= 65536`. -/
theorem checksum_length_bound_counterexample :
    0 < 65544 ∧ 65544 % 8 = 0 ∧ 65544 ≤ 65536 + 24 ∧
    (List.replicate 65544 0 : Buf).length = 65544 ∧
    formatWalChecksumBytes .little true (List.replicate 65544 0) 65544 (some (0, 0)) =
      .assertionFailure := by
  refine ⟨by decide, by decide, by decide, List.length_replicate _ _, by decide⟩

/-- C14 as amended (length contract of the checksum): `formatWalChecksumBytes`
returns a result exactly for the lengths `n` that are positive multiples of 8 and at
most 65536 (the maximum page size); for a length that is 0, not a multiple of 8, or
larger than 65536 it fails an assertion. -/
theorem checksum_length_contract (host : ByteOrder) (native : Bool) (data : Buf) (n : Nat)
    (in_ : Option (Nat × Nat)) :
    ((∃ r, formatWalChecksumBytes host native data n in_ = .ok r) ↔
      (0 < n ∧ n % 8 = 0 ∧ n ≤ 65536)) ∧
    ((n = 0 ∨ n % 8 ≠ 0 ∨ 65536 < n) ↔
      formatWalChecksumBytes host native data n in_ = .assertionFailure) := by
  obtain ⟨hok, hfail⟩ := formatWalChecksumBytes_accepts host native data n in_
  refine ⟨⟨?_, hok⟩, ⟨?_, ?_⟩⟩
  · rintro ⟨r, hr⟩
    by_contra hnot
    rw [hfail hnot] at hr
    exact Outcome.noConfusion hr
  · intro h
    exact hfail (by omega)
  · intro h
    by_contra hnot
    obtain ⟨r, hr⟩ := hok (by omega)
    rw [hr] at h
    exact Outcome.noConfusion h

/-- C15 (frame arithmetic inverts the WAL layout): for every page size `ps ≥ 1` and
every `n`, `formatWalCalcFramesNumber ps (32 + n * (24 + ps)) = n`, and for every
`k ≥ 1` and every offset with `32 + (k - 1) * (24 + ps) ≤ offset < 32 + k * (24 + ps)`,
`formatWalCalcFrameIndex ps offset = k`. -/
theorem frame_arithmetic (ps n k offset : Nat) (_hps : 1 ≤ ps) (hk : 1 ≤ k)
    (hlo : 32 + (k - 1) * (24 + ps) ≤ offset) (hhi : offset < 32 + k * (24 + ps)) :
    formatWalCalcFramesNumber ps (32 + n * (24 + ps)) = n ∧
    formatWalCalcFrameIndex ps offset = k := by
  have hpos : 0 < 24 + ps := by omega
  constructor
  · simp only [formatWalCalcFramesNumber, FORMAT__WAL_HDR_SIZE, formatWalCalcFrameSize,
      FORMAT__WAL_FRAME_HDR_SIZE, Nat.add_sub_cancel_left]
    exact Nat.mul_div_cancel n hpos
  · simp only [formatWalCalcFrameIndex, formatWalCalcFramesNumber, FORMAT__WAL_HDR_SIZE,
      formatWalCalcFrameSize, FORMAT__WAL_FRAME_HDR_SIZE]
    obtain ⟨j, rfl⟩ : ∃ j, k = j + 1 := ⟨k - 1, by omega⟩
    simp only [Nat.add_sub_cancel] at hlo
    have hdiv : (offset - 32) / (24 + ps) = j :=
      Nat.div_eq_of_lt_le (by omega) (by omega)
    rw [hdiv]

/-- Witness for C15: page size 512, three frames, an offset inside the second frame. -/
theorem frame_arithmetic_witness :
    formatWalCalcFramesNumber 512 (32 + 3 * (24 + 512)) = 3 ∧
    formatWalCalcFrameIndex 512 600 = 2 :=
  frame_arithmetic 512 3 2 600 (by decide) (by decide) (by decide) (by decide)

/-- Counterexample to C18 as stated: on a little-endian host, for the 96-byte zeroed
header with byte 13 set to 1, the words stored at bytes 40..47 by
`formatWalIndexHeaderRevert` are `(352845824, 588054528)`, whereas the native-order
checksum of the first 40 bytes of the result is `(2069, 3363)`. -/
theorem revert_checksum_native_counterexample :
    ∃ header' : Buf,
      formatWalIndexHeaderRevert .little ((List.replicate 96 0).set 13 1) 1 2 3 4 =
        .ok header' ∧
      (load32 .little header' 40, load32 .little header' 44) = (352845824, 588054528) ∧
      formatWalChecksumBytes .little true header' 40 (some (0, 0)) = .ok (2069, 3363) := by
  refine ⟨_, rfl, ?_, ?_⟩ <;> decide

/-- C18 as amended (byte order of the WAL-index header checksum): for every host and
header buffer of at least 96 bytes, the pair `formatWalIndexHeaderRevert` writes at
bytes 40..47 is the checksum of the rewritten first 40 bytes, seed `(0, 0)`, in the byte
order selected by the flag byte at offset 13: it is the native-order checksum when that
byte is zero, and on a big-endian host whatever the byte; when the byte is non-zero it
is the non-native (big-endian word) checksum. -/
theorem revert_checksum_order (host : ByteOrder) (header : Buf)
    (max_frame n_pages frame_checksum1 frame_checksum2 : Nat) (hlen : 96 ≤ header.length) :
    ∃ header' : Buf,
      formatWalIndexHeaderRevert host header max_frame n_pages frame_checksum1
        frame_checksum2 = .ok header' ∧
      ((rd header 13).val = 0 ∨ host = .big →
        formatWalChecksumBytes host true header' 40 (some (0, 0)) =
          .ok (load32 host header' 40, load32 host header' 44)) ∧
      ((rd header 13).val ≠ 0 →
        formatWalChecksumBytes host false header' 40 (some (0, 0)) =
          .ok (load32 host header' 40, load32 host header' 44)) := by
  refine ⟨_, formatWalIndexHeaderRevert_eq host header max_frame n_pages frame_checksum1
    frame_checksum2, ?_, ?_⟩
  · intro h
    have e := formatWalChecksumBytes_eq host true
      (memcpy
        (revertPrimary host header max_frame n_pages frame_checksum1 frame_checksum2) 48
        (revertPrimary host header max_frame n_pages frame_checksum1 frame_checksum2) 0 48)
      5 (0, 0) (by omega) (by omega)
    simp only [Nat.reduceMul] at e
    rw [e, revert_sums_congr host true header _ _ _ _ hlen,
      revert_stored_words host header _ _ _ _ hlen]
    rcases h with h | h
    · simp only [h, decide_True]
    · subst h
      simp only [wordReader_big]
  · intro h
    have e := formatWalChecksumBytes_eq host false
      (memcpy
        (revertPrimary host header max_frame n_pages frame_checksum1 frame_checksum2) 48
        (revertPrimary host header max_frame n_pages frame_checksum1 frame_checksum2) 0 48)
      5 (0, 0) (by omega) (by omega)
    simp only [Nat.reduceMul] at e
    rw [e, revert_sums_congr host false header _ _ _ _ hlen,
      revert_stored_words host header _ _ _ _ hlen]
    simp only [h, decide_False]

/-- Witness for amended C18: the header of the counterexample on a little-endian
host. -/
theorem revert_checksum_order_witness :
    ∃ header' : Buf,
      formatWalIndexHeaderRevert .little ((List.replicate 96 0).set 13 1) 1 2 3 4 =
        .ok header' ∧
      ((rd ((List.replicate 96 0).set 13 1) 13).val = 0 ∨ ByteOrder.little = .big →
        formatWalChecksumBytes .little true header' 40 (some (0, 0)) =
          .ok (load32 .little header' 40, load32 .little header' 44)) ∧
      ((rd ((List.replicate 96 0).set 13 1) 13).val ≠ 0 →
        formatWalChecksumBytes .little false header' 40 (some (0, 0)) =
          .ok (load32 .little header' 40, load32 .little header' 44)) :=
  revert_checksum_order .little ((List.replicate 96 0).set 13 1) 1 2 3 4 (by decide)

/-- C19 (seed-sensitivity of the checksum): for every host, native flag and buffer
whose length is a positive multiple of 8 and at most 65536, `formatWalChecksumBytes`
returns for every seed, and two different pairs of 32-bit seeds give different output
pairs. -/
theorem checksum_seed_injective (host : ByteOrder) (native : Bool) (data : Buf)
    (s t : Nat × Nat) (h0 : 0 < data.length) (h8 : data.length % 8 = 0)
    (hmax : data.length ≤ 65536) (hs1 : s.1 < 4294967296) (hs2 : s.2 < 4294967296)
    (ht1 : t.1 < 4294967296) (ht2 : t.2 < 4294967296) (hne : s ≠ t) :
    ∃ rs rt : Nat × Nat,
      formatWalChecksumBytes host native data data.length (some s) = .ok rs ∧
      formatWalChecksumBytes host native data data.length (some t) = .ok rt ∧
      rs ≠ rt := by
  obtain ⟨k, hk⟩ : ∃ k, data.length = 8 * k := ⟨data.length / 8, by omega⟩
  rw [hk]
  refine ⟨_, _, formatWalChecksumBytes_eq host native data k s (by omega) (by omega),
    formatWalChecksumBytes_eq host native data k t (by omega) (by omega), ?_⟩
  intro h
  exact hne (runningSums_injective _ data k 0 s t ⟨hs1, hs2⟩ ⟨ht1, ht2⟩ h)

/-- Witness for C19: seeds `(0, 0)` and `(0, 1)` over an 8-byte buffer. -/
theorem checksum_seed_injective_witness :
    ∃ rs rt : Nat × Nat,
      formatWalChecksumBytes .little false [1, 2, 3, 4, 5, 6, 7, 8]
        ([1, 2, 3, 4, 5, 6, 7, 8] : Buf).length (some (0, 0)) = .ok rs ∧
      formatWalChecksumBytes .little false [1, 2, 3, 4, 5, 6, 7, 8]
        ([1, 2, 3, 4, 5, 6, 7, 8] : Buf).length (some (0, 1)) = .ok rt ∧
      rs ≠ rt :=
  checksum_seed_injective .little false [1, 2, 3, 4, 5, 6, 7, 8] (0, 0) (0, 1) (by decide)
    (by decide) (by decide) (by decide) (by decide) (by decide) (by decide) (by decide)

/-- C20 (frame of the revert): for every host, header buffer of at least 120 bytes
(the two header copies and the read marks) and arguments, `formatWalIndexHeaderRevert`
keeps the length of the buffer and leaves bytes 0..15, bytes 32..39 and every byte from
offset 96 on unchanged, so `formatWalGetReadMarks` returns the same five read marks
after the revert as before it. -/
theorem revert_frame (host : ByteOrder) (header : Buf)
    (max_frame n_pages frame_checksum1 frame_checksum2 : Nat) (hlen : 120 ≤ header.length) :
    ∃ header' : Buf,
      formatWalIndexHeaderRevert host header max_frame n_pages frame_checksum1
        frame_checksum2 = .ok header' ∧
      header'.length = header.length ∧
      (∀ j, j < 16 ∨ (32 ≤ j ∧ j < 40) ∨ 96 ≤ j → rd header' j = rd header j) ∧
      formatWalGetReadMarks host header' = formatWalGetReadMarks host header := by
  have keep : ∀ j, j < 16 ∨ (32 ≤ j ∧ j < 40) ∨ 96 ≤ j →
      rd (memcpy
          (revertPrimary host header max_frame n_pages frame_checksum1 frame_checksum2) 48
          (revertPrimary host header max_frame n_pages frame_checksum1 frame_checksum2) 0 48)
        j = rd header j := by
    intro j hj
    rw [rd_revert_result _ _ _ _ _ _ _ (by omega), if_neg (by omega),
      rd_revertPrimary_other _ _ _ _ _ _ _ (by omega),
      rd_revertFields_other _ _ _ _ _ _ _ (by omega)]
  refine ⟨_, formatWalIndexHeaderRevert_eq host header max_frame n_pages frame_checksum1
    frame_checksum2, by simp, keep, ?_⟩
  simp only [formatWalGetReadMarks]
  apply List.map_congr_left
  intro i _
  exact load32_congr host _ _ _ _ (fun m _ => keep _ (by omega))

/-- Witness for C20: a 120-byte header of `0x07` bytes on a little-endian host. -/
theorem revert_frame_witness :
    ∃ header' : Buf,
      formatWalIndexHeaderRevert .little (List.replicate 120 7) 1 2 3 4 = .ok header' ∧
      header'.length = (List.replicate 120 7 : Buf).length ∧
      (∀ j, j < 16 ∨ (32 ≤ j ∧ j < 40) ∨ 96 ≤ j →
        rd header' j = rd (List.replicate 120 7) j) ∧
      formatWalGetReadMarks .little header' =
        formatWalGetReadMarks .little (List.replicate 120 7) :=
  revert_frame .little (List.replicate 120 7) 1 2 3 4 (by decide)

/-- C16 (isolation of unreplicated writes), on the specification's model of the VFS:
a write transaction and a poll each leave `mxFrame` and the frames visible to readers
unchanged; so does every sequence of operations that contains no commit; and after any
sequence of operations on a freshly opened file, every frame a reader can see was
passed to a commit of that sequence. -/
theorem unreplicated_writes_invisible (s : VfsState) (conn : Nat) (frames : List VfsFrame)
    (ops : List VfsOp) :
    ((vfsStep s (.writeTransaction conn frames)).1.mxFrame = s.mxFrame ∧
      vfsVisible (vfsStep s (.writeTransaction conn frames)).1 = vfsVisible s) ∧
    ((vfsStep s .poll).1.mxFrame = s.mxFrame ∧
      vfsVisible (vfsStep s .poll).1 = vfsVisible s) ∧
    ((∀ op ∈ ops, ∀ fs, op ≠ .commit fs) →
      (vfsRun s ops).mxFrame = s.mxFrame ∧ vfsVisible (vfsRun s ops) = vfsVisible s) ∧
    (∀ f ∈ vfsVisible (vfsRun vfsOpen ops), ∃ fs, VfsOp.commit fs ∈ ops ∧ f ∈ fs) := by
  refine ⟨?_, ?_, ?_, ?_⟩
  · obtain ⟨h1, h2⟩ := vfsStep_keeps_wal s (.writeTransaction conn frames)
      (fun _ h => VfsOp.noConfusion h)
    exact ⟨h2, by rw [vfsVisible, vfsVisible, h1, h2]⟩
  · obtain ⟨h1, h2⟩ := vfsStep_keeps_wal s .poll (by intro fs h; cases h)
    exact ⟨h2, by rw [vfsVisible, vfsVisible, h1, h2]⟩
  · intro h
    obtain ⟨h1, h2⟩ := vfsRun_keeps_wal ops s h
    exact ⟨h2, by rw [vfsVisible, vfsVisible, h1, h2]⟩
  · intro f hf
    rcases vfsRun_wal_mem ops vfsOpen f (List.mem_of_mem_take hf) with h | h
    · simp [vfsOpen] at h
    · exact h

/-- C17 (the write lock survives poll), on the specification's model of the VFS: after
a write transaction that succeeded, followed by a poll and by any further operations
other than commit and revert, a write transaction attempted by any connection (in
particular by another one) returns busy and leaves the state unchanged. -/
theorem write_lock_survives_poll (s : VfsState) (c c' : Nat) (fs fs' : List VfsFrame)
    (ops : List VfsOp) (hw : (vfsStep s (.writeTransaction c fs)).2 = .ok)
    (hops : ∀ op ∈ ops, op ≠ .revert ∧ ∀ g, op ≠ .commit g) :
    vfsStep (vfsRun (vfsStep s (.writeTransaction c fs)).1 (.poll :: ops))
        (.writeTransaction c' fs') =
      (vfsRun (vfsStep s (.writeTransaction c fs)).1 (.poll :: ops), .busy) := by
  apply vfsStep_write_busy
  apply vfsRun_keeps_lock _ _ (vfsStep_write_ok_locks s c fs hw)
  intro op hop
  rcases List.mem_cons.mp hop with rfl | h
  · constructor
    · intro h; cases h
    · intro g h; cases h
  · exact hops op h

/-- Witness for C17: on a freshly opened file, connection 1 writes two frames, the
file is polled, and connection 2 attempts a write transaction. -/
theorem write_lock_survives_poll_witness :
    vfsStep
        (vfsRun (vfsStep vfsOpen (.writeTransaction 1 [⟨1, []⟩, ⟨2, []⟩])).1 (.poll :: []))
        (.writeTransaction 2 [⟨3, []⟩]) =
      (vfsRun (vfsStep vfsOpen (.writeTransaction 1 [⟨1, []⟩, ⟨2, []⟩])).1 (.poll :: []),
        .busy) :=
  write_lock_survives_poll vfsOpen 1 2 [⟨1, []⟩, ⟨2, []⟩] [⟨3, []⟩] [] (by decide)
    (by intro op hop; cases hop)

/-- C21 (the last revert wins): for every host, header buffer of at least 96 bytes and
argument tuples `x` and `y`, `formatWalIndexHeaderRevert` with `y` and then with `x`
returns exactly the header that `formatWalIndexHeaderRevert` with `x` alone returns;
in particular applying it twice with `x` equals applying it once. -/
theorem last_revert_wins (host : ByteOrder) (header : Buf) (x1 x2 x3 x4 y1 y2 y3 y4 : Nat)
    (hlen : 96 ≤ header.length) :
    ∃ hy hx : Buf,
      formatWalIndexHeaderRevert host header y1 y2 y3 y4 = .ok hy ∧
      formatWalIndexHeaderRevert host header x1 x2 x3 x4 = .ok hx ∧
      formatWalIndexHeaderRevert host hy x1 x2 x3 x4 = .ok hx ∧
      formatWalIndexHeaderRevert host hx x1 x2 x3 x4 = .ok hx := by
  refine ⟨revertResult host header y1 y2 y3 y4, revertResult host header x1 x2 x3 x4,
    formatWalIndexHeaderRevert_result _ _ _ _ _ _,
    formatWalIndexHeaderRevert_result _ _ _ _ _ _, ?_, ?_⟩
  · rw [formatWalIndexHeaderRevert_result,
      revertResult_revertResult host header x1 x2 x3 x4 y1 y2 y3 y4 hlen]
  · rw [formatWalIndexHeaderRevert_result,
      revertResult_revertResult host header x1 x2 x3 x4 x1 x2 x3 x4 hlen]

/-- Witness for C21: a 96-byte header of `0x07` bytes on a little-endian host, reverted
with `(9, 8, 7, 6)` and then with `(1, 2, 3, 4)`. -/
theorem last_revert_wins_witness :
    ∃ hy hx : Buf,
      formatWalIndexHeaderRevert .little (List.replicate 96 7) 9 8 7 6 = .ok hy ∧
      formatWalIndexHeaderRevert .little (List.replicate 96 7) 1 2 3 4 = .ok hx ∧
      formatWalIndexHeaderRevert .little hy 1 2 3 4 = .ok hx ∧
      formatWalIndexHeaderRevert .little hx 1 2 3 4 = .ok hx :=
  last_revert_wins .little (List.replicate 96 7) 1 2 3 4 9 8 7 6 (by decide)

/-- C22 (decoded page sizes are safe to checksum): every non-zero value returned by
`formatDatabaseGetPageSize` (header of at least 100 bytes) or by `formatWalGetPageSize`
(header of at least 32 bytes) is a multiple of 8 between 8 and 65536; and
`formatWalPutFrameHeader` called with that value as `page_size`, a page of that many
bytes and a header buffer of at least 24 bytes returns a result, both its checksum
pass over the 8 header bytes and its pass over the page passing every assertion of
`formatWalChecksumBytes`. -/
theorem decoded_page_size_safe (dbHeader walHeader : Buf) (ps : Nat)
    (_hdb : 100 ≤ dbHeader.length) (_hwal : 32 ≤ walHeader.length)
    (hps : ps = formatDatabaseGetPageSize dbHeader ∨ ps = formatWalGetPageSize walHeader)
    (hnz : ps ≠ 0) :
    (ps % 8 = 0 ∧ 8 ≤ ps ∧ ps ≤ 65536) ∧
    ∀ (host : ByteOrder) (native : Bool)
      (page_number database_size salt1 salt2 checksum1 checksum2 : Nat) (header page : Buf),
      24 ≤ header.length → page.length = ps →
      (∃ c8 : Nat × Nat,
        formatWalChecksumBytes host native
          (formatPut32 database_size (formatPut32 page_number header 0) 4) 8
          (some (u32 checksum1, u32 checksum2)) = .ok c8 ∧
        ∃ cs : Nat × Nat, formatWalChecksumBytes host native page ps (some c8) = .ok cs) ∧
      ∃ (cs : Nat × Nat) (header' : Buf),
        formatWalPutFrameHeader host native page_number database_size salt1 salt2 checksum1
          checksum2 header page ps = .ok (cs, header') := by
  have hsafe : ps % 8 = 0 ∧ 8 ≤ ps ∧ ps ≤ 65536 := by
    rcases hps with h | h
    · rw [h, formatDatabaseGetPageSize] at hnz ⊢
      exact formatDecodePageSize_safe _ hnz
    · rw [h, formatWalGetPageSize] at hnz ⊢
      exact formatDecodePageSize_safe _ hnz
  refine ⟨hsafe, ?_⟩
  intro host native page_number database_size salt1 salt2 checksum1 checksum2 header page _ _
  obtain ⟨k, rfl⟩ : ∃ k, ps = 8 * k := ⟨ps / 8, by omega⟩
  refine ⟨⟨_, formatWalChecksumBytes_eq host native _ 1 _ (by omega) (by omega),
    _, formatWalChecksumBytes_eq host native page k _ (by omega) hsafe.2.2⟩, ?_⟩
  exact ⟨_, _, formatWalPutFrameHeader_eq host native page_number database_size salt1 salt2
    checksum1 checksum2 header page k (by omega) hsafe.2.2⟩

/-- Witness for C22: a 100-byte database header with page-size bytes `00 01` (the
sentinel for 65536) beside a zeroed 32-byte WAL header. -/
theorem decoded_page_size_safe_witness :
    (65536 % 8 = 0 ∧ 8 ≤ 65536 ∧ 65536 ≤ 65536) ∧
    ∀ (host : ByteOrder) (native : Bool)
      (page_number database_size salt1 salt2 checksum1 checksum2 : Nat) (header page : Buf),
      24 ≤ header.length → page.length = 65536 →
      (∃ c8 : Nat × Nat,
        formatWalChecksumBytes host native
          (formatPut32 database_size (formatPut32 page_number header 0) 4) 8
          (some (u32 checksum1, u32 checksum2)) = .ok c8 ∧
        ∃ cs : Nat × Nat, formatWalChecksumBytes host native page 65536 (some c8) = .ok cs) ∧
      ∃ (cs : Nat × Nat) (header' : Buf),
        formatWalPutFrameHeader host native page_number database_size salt1 salt2 checksum1
          checksum2 header page 65536 = .ok (cs, header') :=
  decoded_page_size_safe ((List.replicate 100 0).set 17 1) (List.replicate 32 0) 65536
    (by decide) (by decide) (Or.inl (by decide)) (by decide)

end Dqlite
